import Mathlib

/-!
Verification development for the sensitive-data detection engine of the
Document_Redaction repository (`src/office/sensitivePatterns.ts`).

The TypeScript source scans a text with a fixed family of JavaScript regular
expressions, validates candidates (Luhn checksum, IBAN mod-97, numeric range
exclusion, contextual keywords) and merges the per-family results with
insertion-ordered deduplication maps.

The embedding below models the JavaScript regular expressions with a small
backtracking matcher over `List Char`.  Each regex of the source is
transliterated node-by-node into an `RE` value; the matcher enumerates the
possible matches in JavaScript backtracking priority order (greedy
alternatives first for greedy quantifiers, the continuation first for lazy
quantifiers, left alternative first for `|`), so the head of the result list
is the match that JavaScript's engine returns.  The `g`-flag `exec` loop of
the source (`matchAllUnique` and friends) is modelled by `execAll`, which
repeatedly takes the first match at or after the current last index.
-/

namespace DocRedact

/-! ### Character classes used by the source regexes -/

/-- ASCII decimal digit, JavaScript `\d`. -/
def isDigitC (c : Char) : Bool := '0' ≤ c && c ≤ '9'

/-- ASCII upper-case letter `[A-Z]`. -/
def isUpperAZ (c : Char) : Bool := 'A' ≤ c && c ≤ 'Z'

/-- ASCII lower-case letter `[a-z]`. -/
def isLowerAZ (c : Char) : Bool := 'a' ≤ c && c ≤ 'z'

/-- ASCII letter; `[A-Z]` under the JavaScript `i` flag. -/
def isLetterI (c : Char) : Bool := isUpperAZ c || isLowerAZ c

/-- ASCII letter or digit; `[A-Z0-9]` under the `i` flag. -/
def isAlnumI (c : Char) : Bool := isLetterI c || isDigitC c

/-- JavaScript whitespace `\s` (the characters relevant to this code base:
space, tab, line feed, carriage return, vertical tab, form feed and
no-break space). -/
def isWsC (c : Char) : Bool :=
  c = ' ' || c = '\t' || c = '\n' || c = '\r' ||
  c = Char.ofNat 11 || c = Char.ofNat 12 || c = Char.ofNat 160

/-- JavaScript word character `\w` = `[A-Za-z0-9_]`, used by `\b`. -/
def isWordC (c : Char) : Bool := isLetterI c || isDigitC c || c = '_'

/-! ### Regular expression abstract syntax

Only the constructs appearing in the source regexes are present.  The
lookarounds of the source are all single-character negative classes
(`(?<!\d)`, `(?!\d)`, `(?<![A-Z0-9])`, `(?![A-Z0-9])`), so they are
modelled directly as such. -/

inductive RE where
  | eps : RE
  | cls (p : Char → Bool) : RE
  | cat (a b : RE) : RE
  | alt (a b : RE) : RE
  /-- `a{mn,mx}` (`mx = none` meaning unbounded); `lz` marks a lazy
  quantifier (`*?`). -/
  | rep (a : RE) (mn : Nat) (mx : Option Nat) (lz : Bool) : RE
  /-- Negative lookahead on a single character class, e.g. `(?!\d)`. -/
  | nla (p : Char → Bool) : RE
  /-- Negative lookbehind on a single character class, e.g. `(?<!\d)`. -/
  | nlb (p : Char → Bool) : RE
  /-- Word boundary `\b`. -/
  | bnd : RE
  /-- Capturing group number `i`. -/
  | grp (i : Nat) (a : RE) : RE

/-- Captured groups: association list from group number to captured text. -/
abbrev Caps := List (Nat × String)

/-- `m[i] ?? ""` of a JavaScript match object. -/
def capGet (caps : Caps) (i : Nat) : String :=
  match caps.find? (fun p => p.1 = i) with
  | some p => p.2
  | none => ""

/-- The substring of `s` from position `a` (inclusive) to `b` (exclusive),
clamped to the string like JavaScript `slice` with non-negative indices. -/
def sliceL (s : List Char) (a b : Nat) : List Char := (s.drop a).take (b - a)

/-! ### The backtracking matcher

`mrun s fuel re pos caps` returns the list of `(end position, captures)`
pairs of all ways `re` can match `s` starting at `pos`, in JavaScript
backtracking priority order; the head is the match JavaScript commits to.
`fuel` bounds the recursion depth and is chosen large enough by callers. -/

def mrun (s : List Char) : Nat → RE → Nat → Caps → List (Nat × Caps)
  | 0, _, _, _ => []
  | fuel + 1, re, pos, caps =>
    match re with
    | .eps => [(pos, caps)]
    | .cls p =>
      match s[pos]? with
      | some c => if p c then [(pos + 1, caps)] else []
      | none => []
    | .cat a b =>
      (mrun s fuel a pos caps).flatMap (fun r => mrun s fuel b r.1 r.2)
    | .alt a b => mrun s fuel a pos caps ++ mrun s fuel b pos caps
    | .rep a mn mx lz =>
      let stop : List (Nat × Caps) := if mn = 0 then [(pos, caps)] else []
      let step : List (Nat × Caps) :=
        if mx = some 0 then []
        else
          (mrun s fuel a pos caps).flatMap (fun r =>
            if pos < r.1 then
              mrun s fuel (.rep a (mn - 1) (mx.map (· - 1)) lz) r.1 r.2
            else [])
      if lz then stop ++ step else step ++ stop
    | .nla p =>
      match s[pos]? with
      | some c => if p c then [] else [(pos, caps)]
      | none => [(pos, caps)]
    | .nlb p =>
      match pos with
      | 0 => [(0, caps)]
      | q + 1 =>
        match s[q]? with
        | some c => if p c then [] else [(pos, caps)]
        | none => [(pos, caps)]
    | .bnd =>
      let prevW : Bool :=
        match pos with
        | 0 => false
        | q + 1 => match s[q]? with | some c => isWordC c | none => false
      let nextW : Bool :=
        match s[pos]? with | some c => isWordC c | none => false
      if prevW ≠ nextW then [(pos, caps)] else []
    | .grp i a =>
      (mrun s fuel a pos caps).map
        (fun r => (r.1, (i, String.mk (sliceL s pos r.1)) :: r.2))

/-- Recursion-depth budget for `mrun`: generous linear bound in the input
length (every quantifier iteration of the source regexes consumes at least
one character). -/
def fuelFor (s : List Char) : Nat := 16 * (s.length + 8)

/-- First match of `re` at or after position `i`, trying start positions in
increasing order like a JavaScript `exec` on a `g` regex; `n` counts the
remaining start positions. -/
def findFromAux (s : List Char) (re : RE) : Nat → Nat → Option (Nat × Nat × Caps)
  | _, 0 => none
  | i, n + 1 =>
    match (mrun s (fuelFor s) re i []).head? with
    | some r => some (i, r.1, r.2)
    | none => findFromAux s re (i + 1) n

def findFrom (s : List Char) (re : RE) (start : Nat) : Option (Nat × Nat × Caps) :=
  findFromAux s re start (s.length + 1 - start)

/-- One match produced by the `exec` loop: start and end positions, the whole
matched text `m[0]`, and the captures. -/
structure MatchRes where
  start : Nat
  stop : Nat
  whole : String
  caps : Caps
  deriving Repr, DecidableEq

/-- The `while ((m = re.exec(text)) !== null)` loop of the source: collect
successive non-overlapping matches, resuming at each match's end (advancing
by one on an empty match, which none of the source regexes can produce).
`n` bounds the number of matches. -/
def execAllAux (s : List Char) (re : RE) : Nat → Nat → List MatchRes
  | _, 0 => []
  | li, n + 1 =>
    match findFrom s re li with
    | none => []
    | some (i, e, c) =>
      ⟨i, e, String.mk (sliceL s i e), c⟩ ::
        execAllAux s re (if i < e then e else e + 1) n

def execAll (re : RE) (text : String) : List MatchRes :=
  execAllAux text.data re 0 (text.data.length + 1)

/-! ### Regex construction helpers -/

/-- Sequence of regexes (right-nested concatenation). -/
def reSeq (l : List RE) : RE := l.foldr RE.cat RE.eps

/-- Case-sensitive literal string. -/
def lit (str : String) : RE := reSeq (str.data.map (fun c => RE.cls (fun d => d = c)))

/-- Case-insensitive literal string (the `i` flag on an ASCII literal). -/
def liti (str : String) : RE :=
  reSeq (str.data.map (fun c => RE.cls (fun d => d.toLower = c.toLower)))

/-- Greedy `r?`. -/
def reOpt (r : RE) : RE := .rep r 0 (some 1) false

/-- Greedy `p*` over a character class. -/
def clsStar (p : Char → Bool) : RE := .rep (.cls p) 0 none false

/-- `p{n}` over a character class. -/
def clsExact (p : Char → Bool) (n : Nat) : RE := .rep (.cls p) n (some n) false

/-- Greedy `\s*`. -/
def wsStar : RE := clsStar isWsC

/-! ### String helpers of the source -/

/-- JavaScript `String.prototype.trim`: strip leading and trailing
whitespace. -/
def trimChars (l : List Char) : List Char :=
  ((l.dropWhile isWsC).reverse.dropWhile isWsC).reverse

def trimS (s : String) : String := String.mk (trimChars s.data)

/-- `raw.replace(/[^\d]/g, "")`: keep only the decimal digits. -/
def digitsOnly (s : String) : String := String.mk (s.data.filter isDigitC)

/-- `raw.toLowerCase()` (ASCII as used here). -/
def lowerS (s : String) : String := String.mk (s.data.map Char.toLower)

/-- `/^\d{n}$/.test s`. -/
def isDigits (n : Nat) (s : String) : Bool :=
  s.data.length = n && s.data.all isDigitC

/-- `Number(s)` on an all-digit string: decimal value. -/
def decVal (s : String) : Nat :=
  s.data.foldl (fun a c => a * 10 + (c.toNat - 48)) 0

/-! ### The source regexes, transliterated node-by-node

Source: `src/office/sensitivePatterns.ts` lines 17-50 and 114. -/

/-- `/\b[A-Z0-9._%+-]+@[A-Z0-9.-]+\.[A-Z]{2,}\b/gi` -/
def EMAIL_RE : RE :=
  reSeq [.bnd,
    .rep (.cls (fun c => isAlnumI c || c = '.' || c = '_' || c = '%' || c = '+' || c = '-')) 1 none false,
    .cls (fun c => c = '@'),
    .rep (.cls (fun c => isAlnumI c || c = '.' || c = '-')) 1 none false,
    .cls (fun c => c = '.'),
    .rep (.cls isLetterI) 2 none false,
    .bnd]

/-- `/\b\d{3}-\d{2}-\d{4}\b/g` -/
def SSN_RE : RE :=
  reSeq [.bnd, clsExact isDigitC 3, .cls (fun c => c = '-'),
    clsExact isDigitC 2, .cls (fun c => c = '-'),
    clsExact isDigitC 4, .bnd]

/-- `/\b(?:social security number|ssn)\b[^0-9]{0,80}(\d{4})\b/gi` -/
def SSN_LAST4_CONTEXT_RE : RE :=
  reSeq [.bnd, .alt (liti "social security number") (liti "ssn"), .bnd,
    .rep (.cls (fun c => !isDigitC c)) 0 (some 80) false,
    .grp 1 (clsExact isDigitC 4), .bnd]

/-- `[-.\s]` of the phone regex. -/
def isPhoneSep (c : Char) : Bool := c = '-' || c = '.' || isWsC c

/-- `/(?<!\d)(?:\+?\d{1,3}[-.\s]*)?(?:\(\s*\d{3}\s*\)|\d{3})[-.\s]*\d{3}[-.\s]*\d{4}(?!\d)/g` -/
def PHONE_RE : RE :=
  reSeq [.nlb isDigitC,
    reOpt (reSeq [reOpt (.cls (fun c => c = '+')),
      .rep (.cls isDigitC) 1 (some 3) false, clsStar isPhoneSep]),
    .alt (reSeq [.cls (fun c => c = '('), wsStar, clsExact isDigitC 3,
            wsStar, .cls (fun c => c = ')')])
         (clsExact isDigitC 3),
    clsStar isPhoneSep, clsExact isDigitC 3,
    clsStar isPhoneSep, clsExact isDigitC 4,
    .nla isDigitC]

/-- `[ -]` of the card regex. -/
def isCardSep (c : Char) : Bool := c = ' ' || c = '-'

/-- `/(?<!\d)(?:\d[ -]*?){13,19}(?!\d)/g` -/
def CARD_CANDIDATE_RE : RE :=
  reSeq [.nlb isDigitC,
    .rep (.cat (.cls isDigitC) (.rep (.cls isCardSep) 0 none true)) 13 (some 19) false,
    .nla isDigitC]

/-- `/(?<![A-Z0-9])[A-Z]{2}\d{2}(?:[ ]?[A-Z0-9]){11,30}(?![A-Z0-9])/gi` -/
def IBAN_CANDIDATE_RE : RE :=
  reSeq [.nlb isAlnumI, .cls isLetterI, .cls isLetterI,
    .cls isDigitC, .cls isDigitC,
    .rep (.cat (reOpt (.cls (fun c => c = ' '))) (.cls isAlnumI)) 11 (some 30) false,
    .nla isAlnumI]

/-- `[:\-]` separator class. -/
def isColonDash (c : Char) : Bool := c = ':' || c = '-'

/-- `/\brouting(?:\s*number)?\s*[:\-]?\s*(\d{9})\b/gi` -/
def ROUTING_RE : RE :=
  reSeq [.bnd, liti "routing", reOpt (.cat wsStar (liti "number")),
    wsStar, reOpt (.cls isColonDash), wsStar,
    .grp 1 (clsExact isDigitC 9), .bnd]

/-- `/\b(?:account|acct)(?:\s*(?:number|no\.?|#))?\s*[:\-]?\s*(\d{6,17})\b/gi` -/
def ACCOUNT_RE : RE :=
  reSeq [.bnd, .alt (liti "account") (liti "acct"),
    reOpt (.cat wsStar
      (.alt (liti "number")
        (.alt (.cat (liti "no") (reOpt (.cls (fun c => c = '.'))))
              (.cls (fun c => c = '#'))))),
    wsStar, reOpt (.cls isColonDash), wsStar,
    .grp 1 (.rep (.cls isDigitC) 6 (some 17) false), .bnd]

/-- `[- ]` of the sort-code regex. -/
def isDashSpace (c : Char) : Bool := c = '-' || c = ' '

/-- `/\bsort\s*code\s*[:\-]?\s*(\d{2}[- ]?\d{2}[- ]?\d{2})\b/gi` -/
def SORT_CODE_RE : RE :=
  reSeq [.bnd, liti "sort", wsStar, liti "code", wsStar,
    reOpt (.cls isColonDash), wsStar,
    .grp 1 (reSeq [clsExact isDigitC 2, reOpt (.cls isDashSpace),
      clsExact isDigitC 2, reOpt (.cls isDashSpace), clsExact isDigitC 2]),
    .bnd]

/-- `[-\s]` of the prefix-identifier regexes. -/
def isDashWs (c : Char) : Bool := c = '-' || isWsC c

/-- `/\bINS[-\s]*\d{6,14}\b/gi` -/
def INS_POLICY_RE : RE :=
  reSeq [.bnd, liti "INS", clsStar isDashWs,
    .rep (.cls isDigitC) 6 (some 14) false, .bnd]

/-- `/\bEMP[-\s]*\d{2,4}(?:[-\s]*\d{2,6})+\b/gi` -/
def EMPLOYEE_ID_RE : RE :=
  reSeq [.bnd, liti "EMP", clsStar isDashWs,
    .rep (.cls isDigitC) 2 (some 4) false,
    .rep (.cat (clsStar isDashWs) (.rep (.cls isDigitC) 2 (some 6) false)) 1 none false,
    .bnd]

/-- `/\bMRN[-\s]*\d{4,14}\b/gi` -/
def MRN_RE : RE :=
  reSeq [.bnd, liti "MRN", clsStar isDashWs,
    .rep (.cls isDigitC) 4 (some 14) false, .bnd]

/-- `/\b(?:credit\s*card|debit\s*card|card\s*number|visa|mastercard|amex|american\s*express)\b/`
(no `i` flag; it is applied to an already lower-cased window). -/
def CARD_KEYWORD_RE : RE :=
  reSeq [.bnd,
    .alt (reSeq [lit "credit", wsStar, lit "card"])
    (.alt (reSeq [lit "debit", wsStar, lit "card"])
    (.alt (reSeq [lit "card", wsStar, lit "number"])
    (.alt (lit "visa")
    (.alt (lit "mastercard")
    (.alt (lit "amex")
          (reSeq [lit "american", wsStar, lit "express"])))))),
    .bnd]

/-! ### Data model (source lines 1-14) -/

inductive SensitiveType where
  | email | phone | ssn | card | bank
  | insurancePolicy | employeeId | medicalRecordNumber
  deriving Repr, DecidableEq

structure SensitiveMatch where
  type : SensitiveType
  value : String
  deriving Repr, DecidableEq

/-! ### Insertion-ordered deduplication

A JavaScript `Map` keyed by strings, inserted into only when the key is
absent, and read out with `[...map.values()]`, yields the values in first
insertion order.  `dedupPairs seen l` keeps, from the stream `l` of
`(key, value)` pairs, the first pair of each key not already in `seen`. -/

def dedupPairs (seen : List String) : List (String × String) → List (String × String)
  | [] => []
  | p :: rest =>
    if p.1 ∈ seen then dedupPairs seen rest
    else p :: dedupPairs (p.1 :: seen) rest

/-! ### Scanners and validators (source lines 52-207) -/

/-- `matchAllUnique` (source lines 68-79): trim each `m[0]`, drop empties,
deduplicate by the lower-cased text keeping the first-seen surface form. -/
def matchAllUnique (text : String) (re : RE) : List String :=
  (dedupPairs []
    ((((execAll re text).map (fun m => trimS m.whole)).filter
        (fun raw => raw ≠ "")).map (fun raw => (lowerS raw, raw)))).map
    (fun p => p.2)

/-- `findSsnLast4` (source lines 81-94). -/
def findSsnLast4 (text : String) : List String :=
  (dedupPairs []
    ((((execAll SSN_LAST4_CONTEXT_RE text).map
          (fun m => trimS (capGet m.caps 1))).filter
        (fun last4 =>
          isDigits 4 last4 &&
          !(1900 ≤ decVal last4 && decVal last4 ≤ 2099))).map
      (fun last4 => (last4, last4)))).map (fun p => p.2)

/-- `luhnCheck` (source lines 166-182), iterating the digit string from the
right; a character outside `0`-`9` aborts with `false`. -/
def luhnLoop : List Char → Bool → Int → Option Int
  | [], _, sum => some sum
  | c :: rest, dbl, sum =>
    let d : Int := (c.toNat : Int) - 48
    if d < 0 || 9 < d then none
    else
      let d2 : Int := if dbl then (if 9 < d * 2 then d * 2 - 9 else d * 2) else d
      luhnLoop rest (!dbl) (sum + d2)

def luhnCheck (digits : String) : Bool :=
  match luhnLoop digits.data.reverse false 0 with
  | some sum => sum % 10 = 0
  | none => false

/-- The lower-cased ±50-character context window of a candidate
(source lines 106-112). -/
def ctxWindow (text : String) (idx : Nat) (raw : String) : String :=
  lowerS (String.mk (sliceL text.data (idx - 50)
    (min text.data.length (idx + raw.data.length + 50))))

/-- `RE.test` on the keyword regex. -/
def keywordTest (ctx : String) : Bool :=
  (findFrom ctx.data CARD_KEYWORD_RE 0).isSome

/-- The acceptance test of `findCreditCards` (source line 116):
Luhn passes, or a card keyword occurs in the context window. -/
def cardAccept (text : String) (idx : Nat) (raw : String) : Bool :=
  luhnCheck (digitsOnly raw) || keywordTest (ctxWindow text idx raw)

/-- `findCreditCards` (source lines 96-120): candidates whose digits-only
form has 13-19 digits and which pass `cardAccept`, deduplicated by the
digits-only key, first-seen surface form retained. -/
def findCreditCards (text : String) : List String :=
  (dedupPairs []
    (((((execAll CARD_CANDIDATE_RE text).map
            (fun m => (m.start, trimS m.whole))).filter
          (fun c => 13 ≤ (digitsOnly c.2).data.length &&
                    (digitsOnly c.2).data.length ≤ 19)).filter
        (fun c => cardAccept text c.1 c.2)).map
      (fun c => (digitsOnly c.2, c.2)))).map (fun p => p.2)

/-- `normalized` of the IBAN branch (source line 130):
strip whitespace, upper-case. -/
def ibanNormalize (raw : String) : String :=
  String.mk ((raw.data.filter (fun c => !isWsC c)).map Char.toUpper)

/-- Shape test `/^[A-Z]{2}\d{2}[A-Z0-9]{11,30}$/` (source line 186). -/
def ibanShapeOk (l : List Char) : Bool :=
  match l with
  | c1 :: c2 :: d1 :: d2 :: rest =>
    isUpperAZ c1 && isUpperAZ c2 && isDigitC d1 && isDigitC d2 &&
    rest.all (fun c => isUpperAZ c || isDigitC c) &&
    11 ≤ rest.length && rest.length ≤ 30
  | _ => false

/-- The incremental mod-97 loop of `isValidIban` (source lines 192-204):
digits fold one step, letters fold their two decimal digits separately,
anything else aborts (`return false`). -/
def ibanMod97 : List Char → Nat → Option Nat
  | [], m => some m
  | c :: rest, m =>
    if isDigitC c then ibanMod97 rest ((m * 10 + (c.toNat - 48)) % 97)
    else if isUpperAZ c then
      let v := c.toNat - 55
      let m1 := (m * 10 + v / 10) % 97
      ibanMod97 rest ((m1 * 10 + v % 10) % 97)
    else none

/-- `isValidIban` (source lines 184-207). -/
def isValidIban (iban : String) : Bool :=
  if !ibanShapeOk iban.data then false
  else
    match ibanMod97 (iban.data.drop 4 ++ iban.data.take 4) 0 with
    | some m => m = 1
    | none => false

/-- The `(key, value)` pairs inserted by the IBAN branch of
`findBankAccounts` (source lines 126-133). -/
def ibanPairs (text : String) : List (String × String) :=
  (((execAll IBAN_CANDIDATE_RE text).map (fun m => trimS m.whole)).filter
      (fun raw => isValidIban (ibanNormalize raw))).map
    (fun raw => (ibanNormalize raw, raw))

/-- Routing-number branch (source lines 136-142). -/
def routingPairs (text : String) : List (String × String) :=
  (((execAll ROUTING_RE text).map (fun m => trimS (capGet m.caps 1))).filter
      (fun raw => isDigits 9 raw)).map
    (fun raw => ("routing:" ++ raw, raw))

/-- Account-number branch (source lines 145-151). -/
def accountPairs (text : String) : List (String × String) :=
  (((execAll ACCOUNT_RE text).map (fun m => trimS (capGet m.caps 1))).filter
      (fun raw => 6 ≤ raw.data.length && raw.data.length ≤ 17 &&
                  raw.data.all isDigitC)).map
    (fun raw => ("account:" ++ raw, raw))

/-- Sort-code branch (source lines 154-161): the captured group is kept as
the stored value; the key uses its digits-only form. -/
def sortCodePairs (text : String) : List (String × String) :=
  (((execAll SORT_CODE_RE text).map (fun m => trimS (capGet m.caps 1))).filter
      (fun raw => (digitsOnly raw).data.length = 6)).map
    (fun raw => ("sort:" ++ digitsOnly raw, raw))

/-- The single deduplication map of `findBankAccounts`, fed by the four
branches in source order. -/
def bankKeyed (text : String) : List (String × String) :=
  dedupPairs []
    (ibanPairs text ++ routingPairs text ++ accountPairs text ++ sortCodePairs text)

/-- `findBankAccounts` (source lines 122-164). -/
def findBankAccounts (text : String) : List String :=
  (bankKeyed text).map (fun p => p.2)

/-- `findSensitiveMatches` (source lines 52-66): the per-family results,
tagged and concatenated in source order. -/
def findSensitiveMatches (text : String) : List SensitiveMatch :=
  (matchAllUnique text EMAIL_RE).map (fun v => ⟨.email, v⟩) ++
  (matchAllUnique text SSN_RE).map (fun v => ⟨.ssn, v⟩) ++
  (findSsnLast4 text).map (fun v => ⟨.ssn, v⟩) ++
  (matchAllUnique text PHONE_RE).map (fun v => ⟨.phone, v⟩) ++
  (findCreditCards text).map (fun v => ⟨.card, v⟩) ++
  (findBankAccounts text).map (fun v => ⟨.bank, v⟩) ++
  (matchAllUnique text INS_POLICY_RE).map (fun v => ⟨.insurancePolicy, v⟩) ++
  (matchAllUnique text EMPLOYEE_ID_RE).map (fun v => ⟨.employeeId, v⟩) ++
  (matchAllUnique text MRN_RE).map (fun v => ⟨.medicalRecordNumber, v⟩)

/-! ### Auxiliary definitions used by the statements -/

/-- The candidate stream of `findCreditCards`: start index and trimmed
`m[0]` of each match of the card-candidate regex. -/
def cardCandidates (text : String) : List (Nat × String) :=
  (execAll CARD_CANDIDATE_RE text).map (fun m => (m.start, trimS m.whole))

/-- The digit-count filter of `findCreditCards` (source line 103). -/
def cardLenOk (c : Nat × String) : Bool :=
  13 ≤ (digitsOnly c.2).data.length && (digitsOnly c.2).data.length ≤ 19

/-- The values of a given semantic type in a result list. -/
def valuesOfType (t : SensitiveType) (ms : List SensitiveMatch) : List String :=
  (ms.filter (fun m => decide (m.type = t))).map (fun m => m.value)

/-- `true` iff the string neither starts nor ends with a whitespace
character. -/
def noEdgeWsB (s : String) : Bool :=
  (match s.data.head? with | some c => !isWsC c | none => true) &&
  (match s.data.getLast? with | some c => !isWsC c | none => true)

/-- The trimmed raw text of each match of a regex, in document order — the
stream `matchAllUnique` deduplicates. -/
def rawStream (text : String) (re : RE) : List String :=
  (execAll re text).map (fun m => trimS m.whole)

/-- The Luhn payload of one digit character: doubled (minus 9 above 9) on
alternating positions. -/
def luhnDigit (c : Char) (dbl : Bool) : Int :=
  let d : Int := (c.toNat : Int) - 48
  if dbl then (if 9 < d * 2 then d * 2 - 9 else d * 2) else d

/-- The total Luhn sum (no failure path), over the reversed digit list. -/
def luhnSum : List Char → Bool → Int
  | [], _ => 0
  | c :: rest, dbl => luhnDigit c dbl + luhnSum rest (!dbl)

/-- The numeric value the incremental IBAN loop computes modulo 97: same
fold without the reductions (letters contribute their two decimal digits). -/
def ibanNumVal : List Char → Nat → Option Nat
  | [], m => some m
  | c :: rest, m =>
    if isDigitC c then ibanNumVal rest (m * 10 + (c.toNat - 48))
    else if isUpperAZ c then
      let v := c.toNat - 55
      ibanNumVal rest ((m * 10 + v / 10) * 10 + v % 10)
    else none

/-- Replace the character at index `i`. -/
def replaceAt (s : String) (i : Nat) (c : Char) : String :=
  String.mk (s.data.set i c)

/-- All strings obtained from `s` by replacing exactly one digit character
with a different decimal digit. -/
def digitMutations (s : String) : List String :=
  (List.range s.data.length).flatMap (fun i =>
    match s.data[i]? with
    | some c =>
      if isDigitC c then
        (['0','1','2','3','4','5','6','7','8','9'].filter
          (fun d => d ≠ c)).map (fun d => replaceAt s i d)
      else []
    | none => [])

/-! ## Lemmas about the insertion-ordered deduplication map -/

theorem dedupPairs_subset {seen : List String} {l : List (String × String)}
    {p : String × String} (h : p ∈ dedupPairs seen l) : p ∈ l := by
  induction l generalizing seen with
  | nil => simp [dedupPairs] at h
  | cons q rest ih =>
    rw [dedupPairs] at h
    split at h
    · exact List.mem_cons_of_mem _ (ih h)
    · rcases List.mem_cons.mp h with h | h
      · exact h ▸ List.mem_cons_self _ _
      · exact List.mem_cons_of_mem _ (ih h)

theorem dedupPairs_sublist (seen : List String) (l : List (String × String)) :
    List.Sublist (dedupPairs seen l) l := by
  induction l generalizing seen with
  | nil => simp [dedupPairs]
  | cons q rest ih =>
    rw [dedupPairs]
    split
    · exact List.Sublist.cons _ (ih seen)
    · exact List.Sublist.cons₂ _ (ih _)

theorem dedupPairs_key_not_seen {seen : List String} {l : List (String × String)}
    {p : String × String} (h : p ∈ dedupPairs seen l) : p.1 ∉ seen := by
  induction l generalizing seen with
  | nil => simp [dedupPairs] at h
  | cons q rest ih =>
    rw [dedupPairs] at h
    split at h
    · exact ih h
    · rcases List.mem_cons.mp h with h | h
      · subst h; assumption
      · intro hs
        exact ih h (List.mem_cons_of_mem _ hs)

theorem dedupPairs_pairwise (seen : List String) (l : List (String × String)) :
    List.Pairwise (fun a b => a.1 ≠ b.1) (dedupPairs seen l) := by
  induction l generalizing seen with
  | nil => simp [dedupPairs]
  | cons q rest ih =>
    rw [dedupPairs]
    split
    · exact ih seen
    · refine List.Pairwise.cons (fun b hb => ?_) (ih _)
      have := dedupPairs_key_not_seen hb
      intro he
      exact this (he ▸ List.mem_cons_self _ _)

theorem dedupPairs_keys_iff {seen : List String} {l : List (String × String)}
    {k : String} :
    (∃ p ∈ dedupPairs seen l, p.1 = k) ↔ (k ∉ seen ∧ ∃ p ∈ l, p.1 = k) := by
  induction l generalizing seen with
  | nil => simp [dedupPairs]
  | cons q rest ih =>
    rw [dedupPairs]
    split
    · rename_i hq
      rw [ih]
      simp only [List.mem_cons]
      constructor
      · rintro ⟨hk, p, hp, rfl⟩
        exact ⟨hk, p, Or.inr hp, rfl⟩
      · rintro ⟨hk, p, hp | hp, rfl⟩
        · exact absurd (hp ▸ hq) hk
        · exact ⟨hk, p, hp, rfl⟩
    · rename_i hq
      simp only [List.mem_cons]
      constructor
      · rintro ⟨p, hp | hp, rfl⟩
        · exact ⟨hp ▸ hq, p, Or.inl hp, rfl⟩
        · rcases ih.mp ⟨p, hp, rfl⟩ with ⟨hk, p2, hp2, heq⟩
          exact ⟨fun hs => hk (List.mem_cons_of_mem _ hs), p2, Or.inr hp2, heq⟩
      · rintro ⟨hk, p, hp | hp, rfl⟩
        · exact ⟨p, Or.inl hp, rfl⟩
        · by_cases hqk : q.1 = p.1
          · exact ⟨q, Or.inl rfl, hqk⟩
          · have hk2 : p.1 ∉ q.1 :: seen :=
              fun hmem => (List.mem_cons.mp hmem).elim (fun h2 => hqk h2.symm) hk
            rcases ih.mpr ⟨hk2, p, hp, rfl⟩ with ⟨p2, hp2, heq⟩
            exact ⟨p2, Or.inr hp2, heq⟩

/-- The dedup-then-project composite of every scanner: if all pairs carry
`key value` as the key, the output values are pairwise distinct under
`key`. -/
theorem pairwise_key_dedup (key : String → String) (L : List (String × String))
    (h : ∀ x ∈ L, x.1 = key x.2) :
    List.Pairwise (fun a b => key a ≠ key b)
      ((dedupPairs [] L).map (fun p => p.2)) := by
  rw [List.pairwise_map]
  refine (dedupPairs_pairwise [] L).imp_of_mem ?_
  intro a b ha hb hne
  rw [h a (dedupPairs_subset ha), h b (dedupPairs_subset hb)] at hne
  exact hne

/-- Key-membership characterisation of the dedup-then-project composite. -/
theorem mem_key_dedup (key : String → String) (L : List (String × String))
    (h : ∀ x ∈ L, x.1 = key x.2) (k : String) :
    (∃ v ∈ (dedupPairs [] L).map (fun p => p.2), key v = k) ↔
    (∃ x ∈ L, key x.2 = k) := by
  constructor
  · rintro ⟨v, hv, rfl⟩
    rcases List.mem_map.mp hv with ⟨p, hp, rfl⟩
    exact ⟨p, dedupPairs_subset hp, rfl⟩
  · rintro ⟨x, hx, rfl⟩
    have : ∃ p ∈ L, p.1 = key x.2 := ⟨x, hx, h x hx⟩
    rcases dedupPairs_keys_iff.mpr ⟨List.not_mem_nil _, this⟩ with ⟨p, hp, hpk⟩
    refine ⟨p.2, List.mem_map_of_mem _ hp, ?_⟩
    rw [← h p (dedupPairs_subset hp), hpk]

/-! ## Character and trimming lemmas -/

theorem not_ws_of_digit {c : Char} (h : isDigitC c = true) : isWsC c = false := by
  by_contra hw
  rw [Bool.not_eq_false] at hw
  simp only [isWsC, Bool.or_eq_true, decide_eq_true_eq] at hw
  rcases hw with ((((((rfl | rfl) | rfl) | rfl) | rfl) | rfl) | rfl) <;>
    exact absurd h (by decide)

theorem toLower_digit {c : Char} (h : isDigitC c = true) : c.toLower = c := by
  simp only [isDigitC, Bool.and_eq_true, decide_eq_true_eq] at h
  have h48 : 48 ≤ c.toNat := h.1
  have h57 : c.toNat ≤ 57 := h.2
  unfold Char.toLower
  have : ¬(65 ≤ c.toNat ∧ c.toNat ≤ 90) := by omega
  simp only [Char.isUpper]
  split
  · rename_i hcond
    exfalso
    apply this
    constructor
    · exact hcond.1
    · exact hcond.2
  · rfl

theorem head?_dropWhile_false {p : α → Bool} {l : List α} {c : α}
    (h : (l.dropWhile p).head? = some c) : p c = false := by
  have hh := List.head?_dropWhile_not p l
  rw [h] at hh
  exact hh

theorem head?_trimChars_not_ws {l : List Char} {c : Char}
    (h : (trimChars l).head? = some c) : isWsC c = false := by
  unfold trimChars at h
  rw [List.head?_reverse] at h
  rcases @List.dropWhile_suffix Char ((List.dropWhile isWsC l).reverse) isWsC
    with ⟨t, ht⟩
  have hne : List.dropWhile isWsC (List.dropWhile isWsC l).reverse ≠ [] := by
    intro he
    rw [he] at h
    simp at h
  have h2 := List.getLast?_append_of_ne_nil t hne
  rw [ht] at h2
  rw [← h2, List.getLast?_reverse] at h
  exact head?_dropWhile_false h

theorem getLast?_trimChars_not_ws {l : List Char} {c : Char}
    (h : (trimChars l).getLast? = some c) : isWsC c = false := by
  unfold trimChars at h
  rw [List.getLast?_reverse] at h
  exact head?_dropWhile_false h

theorem noEdgeWs_trimS (s : String) : noEdgeWsB (trimS s) = true := by
  unfold noEdgeWsB trimS
  refine Bool.and_eq_true_iff.mpr ⟨?_, ?_⟩
  · cases h : (String.mk (trimChars s.data)).data.head? with
    | none => simp
    | some c =>
      simp only
      rw [head?_trimChars_not_ws (by simpa using h)]
      rfl
  · cases h : (String.mk (trimChars s.data)).data.getLast? with
    | none => simp
    | some c =>
      simp only
      rw [getLast?_trimChars_not_ws (by simpa using h)]
      rfl

theorem dropWhile_eq_self_of_all {p : α → Bool} {l : List α}
    (h : l.all (fun c => !p c) = true) : l.dropWhile p = l := by
  cases l with
  | nil => rfl
  | cons c t =>
    rw [List.dropWhile_cons]
    simp only [List.all_cons, Bool.and_eq_true, Bool.not_eq_true'] at h
    simp [h.1]

theorem trimChars_of_all_not_ws {l : List Char}
    (h : l.all (fun c => !isWsC c) = true) : trimChars l = l := by
  unfold trimChars
  rw [dropWhile_eq_self_of_all h]
  rw [dropWhile_eq_self_of_all (by simpa using h)]
  exact List.reverse_reverse l

theorem noEdgeWs_of_digits {s : String}
    (h : s.data.all isDigitC = true) : noEdgeWsB s = true := by
  unfold noEdgeWsB
  refine Bool.and_eq_true_iff.mpr ⟨?_, ?_⟩
  · cases hh : s.data.head? with
    | none => simp
    | some c =>
      have hc : c ∈ s.data := List.mem_of_mem_head? hh
      simp only
      rw [not_ws_of_digit (List.all_eq_true.mp h c hc)]
      rfl
  · cases hh : s.data.getLast? with
    | none => simp
    | some c =>
      have hc : c ∈ s.data := List.mem_of_mem_getLast? hh
      simp only
      rw [not_ws_of_digit (List.all_eq_true.mp h c hc)]
      rfl

theorem lowerS_length (s : String) : (lowerS s).data.length = s.data.length := by
  simp [lowerS]

theorem lowerS_digits {s : String}
    (h : s.data.all isDigitC = true) : lowerS s = s := by
  unfold lowerS
  have he : s.data.map Char.toLower = s.data := by
    conv_rhs => rw [← List.map_id s.data]
    exact List.map_congr_left
      (fun c hc => toLower_digit (List.all_eq_true.mp h c hc))
  rw [he]

theorem digitsOnly_all (s : String) : (digitsOnly s).data.all isDigitC = true := by
  simp only [digitsOnly]
  exact List.all_eq_true.mpr (fun c hc => (List.mem_filter.mp hc).2)

/-! ## Inversion lemmas for the matcher -/

theorem mem_mrun_eps {s : List Char} {f pos caps e cp}
    (h : (e, cp) ∈ mrun s f .eps pos caps) : e = pos ∧ cp = caps := by
  cases f with
  | zero => simp [mrun] at h
  | succ f =>
    simp only [mrun, List.mem_singleton, Prod.mk.injEq] at h
    exact h

theorem mem_mrun_cls {s : List Char} {f p pos caps e cp}
    (h : (e, cp) ∈ mrun s f (.cls p) pos caps) :
    ∃ c, s[pos]? = some c ∧ p c = true ∧ e = pos + 1 ∧ cp = caps := by
  cases f with
  | zero => simp [mrun] at h
  | succ f =>
    simp only [mrun] at h
    split at h
    · rename_i c hc
      split at h
      · rename_i hp
        simp only [List.mem_singleton, Prod.mk.injEq] at h
        exact ⟨c, hc, hp, h.1, h.2⟩
      · simp at h
    · simp at h

theorem mem_mrun_cat {s : List Char} {f a b pos caps e cp}
    (h : (e, cp) ∈ mrun s f (.cat a b) pos caps) :
    ∃ f2 m cm, f = f2 + 1 ∧ (m, cm) ∈ mrun s f2 a pos caps ∧
      (e, cp) ∈ mrun s f2 b m cm := by
  cases f with
  | zero => simp [mrun] at h
  | succ f =>
    simp only [mrun, List.mem_flatMap] at h
    rcases h with ⟨r, hr, hb⟩
    exact ⟨f, r.1, r.2, rfl, hr, hb⟩

theorem mem_mrun_bnd {s : List Char} {f pos caps e cp}
    (h : (e, cp) ∈ mrun s f .bnd pos caps) : e = pos ∧ cp = caps := by
  cases f with
  | zero => simp [mrun] at h
  | succ f =>
    simp only [mrun] at h
    split at h
    · simp only [List.mem_singleton, Prod.mk.injEq] at h
      exact h
    · simp at h

theorem mem_mrun_repExact {s : List Char} {p : Char → Bool} :
    ∀ {n : Nat} {f pos caps e cp},
    (e, cp) ∈ mrun s f (.rep (.cls p) n (some n) false) pos caps →
    e = pos + n ∧ cp = caps ∧
      ∀ j < n, ∃ c, s[pos + j]? = some c ∧ p c = true := by
  intro n
  induction n with
  | zero =>
    intro f pos caps e cp h
    cases f with
    | zero => simp [mrun] at h
    | succ f =>
      simp [mrun] at h
      exact ⟨by omega, h.2, fun j hj => absurd hj (by omega)⟩
  | succ n ih =>
    intro f pos caps e cp h
    cases f with
    | zero => simp [mrun] at h
    | succ f =>
      simp only [mrun, Bool.false_eq_true, reduceIte] at h
      rw [if_neg (by omega : ¬(n + 1 = 0)),
        if_neg (by simp : ¬(some (n + 1) = some 0))] at h
      simp only [List.append_nil, List.mem_flatMap] at h
      rcases h with ⟨r, hr, hrec⟩
      rcases mem_mrun_cls hr with ⟨c, hc, hpc, he1, hcp1⟩
      rw [he1] at hrec
      rw [if_pos (by omega)] at hrec
      simp only [Nat.add_sub_cancel, Option.map_some] at hrec
      rw [hcp1] at hrec
      rcases ih hrec with ⟨he, hcp, hchars⟩
      refine ⟨by omega, hcp, fun j hj => ?_⟩
      cases j with
      | zero => exact ⟨c, by simpa using hc, hpc⟩
      | succ j =>
        rcases hchars j (by omega) with ⟨c2, hc2, hpc2⟩
        exact ⟨c2, by rw [show pos + (j + 1) = pos + 1 + j by omega]; exact hc2, hpc2⟩

theorem findFromAux_mem {s : List Char} {re : RE} :
    ∀ {i n j e c}, findFromAux s re i n = some (j, e, c) →
    (e, c) ∈ mrun s (fuelFor s) re j [] := by
  intro i n
  induction n generalizing i with
  | zero => intro j e c h; simp [findFromAux] at h
  | succ n ih =>
    intro j e c h
    rw [findFromAux] at h
    cases hh : (mrun s (fuelFor s) re i []).head? with
    | none => rw [hh] at h; exact ih h
    | some r =>
      rw [hh] at h
      simp only [Option.some.injEq, Prod.mk.injEq] at h
      rcases h with ⟨rfl, he, hc⟩
      have hr : r ∈ mrun s (fuelFor s) re i [] :=
        List.mem_of_mem_head? (by rw [hh]; rfl)
      rw [← he, ← hc]
      exact hr

theorem execAllAux_mem {s : List Char} {re : RE} :
    ∀ {li n m}, m ∈ execAllAux s re li n →
    (m.stop, m.caps) ∈ mrun s (fuelFor s) re m.start [] ∧
      m.whole = String.mk (sliceL s m.start m.stop) := by
  intro li n
  induction n generalizing li with
  | zero => intro m h; simp [execAllAux] at h
  | succ n ih =>
    intro m h
    rw [execAllAux] at h
    cases hf : findFrom s re li with
    | none => rw [hf] at h; simp at h
    | some r =>
      obtain ⟨i, e, c⟩ := r
      rw [hf] at h
      rcases List.mem_cons.mp h with h | h
      · subst h
        exact ⟨findFromAux_mem hf, rfl⟩
      · exact ih h

theorem execAll_mem {re : RE} {text : String} {m : MatchRes}
    (h : m ∈ execAll re text) :
    (m.stop, m.caps) ∈ mrun text.data (fuelFor text.data) re m.start [] ∧
      m.whole = String.mk (sliceL text.data m.start m.stop) :=
  execAllAux_mem h

/-! ## Shape of direct-SSN matches

Every match of the direct SSN regex spans exactly 11 characters, none of
them whitespace (digits and dashes only); hence every value the SSN scanner
returns has length 11, which separates it from the 4-character values of the
SSN-last-4 scanner inside the shared `ssn` family. -/

theorem ssn_mrun_shape {s : List Char} {f pos caps e cp}
    (h : (e, cp) ∈ mrun s f SSN_RE pos caps) :
    e = pos + 11 ∧ ∀ j < 11, ∃ c, s[pos + j]? = some c ∧ isWsC c = false := by
  have h0 : SSN_RE = RE.cat .bnd (RE.cat (clsExact isDigitC 3)
      (RE.cat (.cls fun c => c = '-') (RE.cat (clsExact isDigitC 2)
      (RE.cat (.cls fun c => c = '-') (RE.cat (clsExact isDigitC 4)
      (RE.cat .bnd .eps)))))) := rfl
  rw [h0] at h
  obtain ⟨f1, m1, c1, rfl, hb1, hA⟩ := mem_mrun_cat h
  obtain ⟨rfl, rfl⟩ := mem_mrun_bnd hb1
  obtain ⟨f2, m2, c2, rfl, h3, hB⟩ := mem_mrun_cat hA
  obtain ⟨he3, rfl, hd3⟩ := mem_mrun_repExact h3
  subst he3
  obtain ⟨f3, m3, c3, rfl, hdash1, hC⟩ := mem_mrun_cat hB
  obtain ⟨cD1, hcD1, hpD1, he4, rfl⟩ := mem_mrun_cls hdash1
  subst he4
  obtain ⟨f4, m4, c4, rfl, h5, hD⟩ := mem_mrun_cat hC
  obtain ⟨he5, rfl, hd5⟩ := mem_mrun_repExact h5
  subst he5
  obtain ⟨f5, m5, c5, rfl, hdash2, hE⟩ := mem_mrun_cat hD
  obtain ⟨cD2, hcD2, hpD2, he6, rfl⟩ := mem_mrun_cls hdash2
  subst he6
  obtain ⟨f6, m6, c6, rfl, h7, hF⟩ := mem_mrun_cat hE
  obtain ⟨he7, rfl, hd7⟩ := mem_mrun_repExact h7
  subst he7
  obtain ⟨f7, m7, c7, rfl, hb2, hG⟩ := mem_mrun_cat hF
  obtain ⟨rfl, rfl⟩ := mem_mrun_bnd hb2
  obtain ⟨rfl, rfl⟩ := mem_mrun_eps hG
  refine ⟨by omega, ?_⟩
  intro j hj
  by_cases hj3 : j < 3
  · obtain ⟨c, hc, hp⟩ := hd3 j hj3
    exact ⟨c, hc, not_ws_of_digit hp⟩
  by_cases hj4 : j = 3
  · subst hj4
    refine ⟨cD1, hcD1, ?_⟩
    rw [of_decide_eq_true hpD1]
    decide
  by_cases hj6 : j < 6
  · obtain ⟨c, hc, hp⟩ := hd5 (j - 4) (by omega)
    rw [show m1 + 3 + 1 + (j - 4) = m1 + j by omega] at hc
    exact ⟨c, hc, not_ws_of_digit hp⟩
  by_cases hj7 : j = 6
  · subst hj7
    refine ⟨cD2, ?_, ?_⟩
    · rw [show m1 + 6 = m1 + 3 + 1 + 2 by omega]
      exact hcD2
    · rw [of_decide_eq_true hpD2]
      decide
  · obtain ⟨c, hc, hp⟩ := hd7 (j - 7) (by omega)
    rw [show m1 + 3 + 1 + 2 + 1 + (j - 7) = m1 + j by omega] at hc
    exact ⟨c, hc, not_ws_of_digit hp⟩

/-- Every output of `matchAllUnique` is the (non-empty) trimmed `m[0]` of
some match of the regex. -/
theorem matchAllUnique_src {text : String} {re : RE} {v : String}
    (hv : v ∈ matchAllUnique text re) :
    v ≠ "" ∧ ∃ m ∈ execAll re text, v = trimS m.whole := by
  unfold matchAllUnique at hv
  rcases List.mem_map.mp hv with ⟨p, hp, rfl⟩
  have hpl := dedupPairs_subset hp
  rcases List.mem_map.mp hpl with ⟨raw, hraw, rfl⟩
  rcases List.mem_filter.mp hraw with ⟨hrawS, hne⟩
  rcases List.mem_map.mp hrawS with ⟨m, hm, rfl⟩
  exact ⟨by simpa using hne, m, hm, rfl⟩

theorem ssn_value_len {text : String} {v : String}
    (hv : v ∈ matchAllUnique text SSN_RE) : v.data.length = 11 := by
  obtain ⟨hne, m, hm, rfl⟩ := matchAllUnique_src hv
  obtain ⟨hrun, hwhole⟩ := execAll_mem hm
  obtain ⟨he, hchars⟩ := ssn_mrun_shape hrun
  have h10 : m.start + 10 < text.data.length := by
    obtain ⟨c, hc, hcw⟩ := hchars 10 (by omega)
    exact (List.getElem?_eq_some.mp hc).1
  have hlen : (sliceL text.data m.start m.stop).length = 11 := by
    rw [he]
    unfold sliceL
    rw [List.length_take, List.length_drop]
    omega
  have hall : (sliceL text.data m.start m.stop).all (fun c => !isWsC c) = true := by
    rw [List.all_eq_true]
    intro c hc
    obtain ⟨j, hjl, hcj⟩ := List.mem_iff_getElem.mp hc
    rw [hlen] at hjl
    have hsome : (sliceL text.data m.start m.stop)[j]? = some c := by
      rw [List.getElem?_eq_some]
      exact ⟨by rw [hlen]; exact hjl, hcj⟩
    rw [he] at hsome
    unfold sliceL at hsome
    rw [List.getElem?_take, if_pos (by omega), List.getElem?_drop] at hsome
    obtain ⟨c2, hc2, hw2⟩ := hchars j hjl
    rw [hc2] at hsome
    simp only [Option.some.injEq] at hsome
    rw [hsome] at hw2
    simp [hw2]
  rw [hwhole]
  show (trimChars (sliceL text.data m.start m.stop)).length = 11
  rw [trimChars_of_all_not_ws hall, hlen]

/-! ## Luhn lemmas -/

theorem digit_bounds {c : Char} (h : isDigitC c = true) :
    48 ≤ c.toNat ∧ c.toNat ≤ 57 := by
  simp only [isDigitC, Bool.and_eq_true, decide_eq_true_eq] at h
  exact ⟨h.1, h.2⟩

theorem digit_of_bounds {c : Char} (h1 : 48 ≤ c.toNat) (h2 : c.toNat ≤ 57) :
    isDigitC c = true := by
  simp only [isDigitC, Bool.and_eq_true, decide_eq_true_eq]
  exact ⟨h1, h2⟩

theorem luhnLoop_all_digits :
    ∀ {l : List Char} {dbl : Bool} {acc : Int},
    l.all isDigitC = true → luhnLoop l dbl acc = some (acc + luhnSum l dbl) := by
  intro l
  induction l with
  | nil => intro dbl acc _; simp [luhnLoop, luhnSum]
  | cons c rest ih =>
    intro dbl acc h
    simp only [List.all_cons, Bool.and_eq_true] at h
    obtain ⟨h48, h57⟩ := digit_bounds h.1
    have hd : ¬(((c.toNat : Int) - 48 < 0 || 9 < (c.toNat : Int) - 48) = true) := by
      simp only [Bool.or_eq_true, decide_eq_true_eq]
      push_neg
      omega
    rw [luhnLoop, if_neg hd, ih h.2, luhnSum]
    show some (acc + luhnDigit c dbl + luhnSum rest (!dbl)) =
      some (acc + (luhnDigit c dbl + luhnSum rest (!dbl)))
    rw [add_assoc]

theorem luhnLoop_has_nonDigit :
    ∀ {l : List Char} {dbl : Bool} {acc : Int},
    (∃ c ∈ l, isDigitC c = false) → luhnLoop l dbl acc = none := by
  intro l
  induction l with
  | nil => rintro dbl acc ⟨c, hc, _⟩; simp at hc
  | cons c rest ih =>
    rintro dbl acc ⟨c2, hc2, hd2⟩
    by_cases hd : (((c.toNat : Int) - 48 < 0 || 9 < (c.toNat : Int) - 48) = true)
    · rw [luhnLoop, if_pos hd]
    · rcases List.mem_cons.mp hc2 with heq | hmem
      · exfalso
        simp only [Bool.or_eq_true, decide_eq_true_eq] at hd
        push_neg at hd
        have hdc : isDigitC c = true := digit_of_bounds (by omega) (by omega)
        rw [heq, hdc] at hd2
        simp at hd2
      · rw [luhnLoop, if_neg hd]
        exact ih ⟨c2, hmem, hd2⟩

/-! ## IBAN lemmas -/

theorem mod97_step (b d : Nat) :
    ((b % 97) * 10 + d) % 97 = (b * 10 + d) % 97 :=
  ((Nat.mod_modEq b 97).mul_right 10).add_right d

theorem ibanMod97_eq_numVal :
    ∀ (l : List Char) (b : Nat),
    ibanMod97 l (b % 97) = (ibanNumVal l b).map (fun n => n % 97) := by
  intro l
  induction l with
  | nil => intro b; simp [ibanMod97, ibanNumVal]
  | cons c rest ih =>
    intro b
    rw [ibanMod97, ibanNumVal]
    by_cases hc : isDigitC c = true
    · simp only [hc, if_true]
      rw [mod97_step]
      exact ih (b * 10 + (c.toNat - 48))
    · simp only [hc, if_false, Bool.false_eq_true]
      by_cases hu : isUpperAZ c = true
      · simp only [hu, if_true]
        rw [mod97_step b ((c.toNat - 55) / 10),
          mod97_step (b * 10 + (c.toNat - 55) / 10) ((c.toNat - 55) % 10)]
        exact ih ((b * 10 + (c.toNat - 55) / 10) * 10 + (c.toNat - 55) % 10)
      · simp only [hu, if_false, Bool.false_eq_true]
        rfl

/-- Completing the mod-97 loop on alphanumeric input. -/
theorem ibanMod97_total :
    ∀ {l : List Char} {a : Nat},
    l.all (fun c => isDigitC c || isUpperAZ c) = true →
    ∃ m, ibanMod97 l a = some m := by
  intro l
  induction l with
  | nil => intro a _; exact ⟨a, rfl⟩
  | cons c rest ih =>
    intro a h
    simp only [List.all_cons, Bool.and_eq_true, Bool.or_eq_true] at h
    rw [ibanMod97]
    rcases h.1 with hc | hc
    · rw [hc]
      exact ih (by simpa using h.2)
    · by_cases hd : isDigitC c = true
      · rw [hd]
        exact ih (by simpa using h.2)
      · simp only [hd, hc, if_true, if_false, Bool.false_eq_true]
        exact ih (by simpa using h.2)

theorem ibanShapeOk_all {l : List Char} (h : ibanShapeOk l = true) :
    l.all (fun c => isDigitC c || isUpperAZ c) = true ∧
    15 ≤ l.length ∧ l.length ≤ 34 := by
  rcases l with _ | ⟨c1, _ | ⟨c2, _ | ⟨d1, _ | ⟨d2, rest⟩⟩⟩⟩
  · simp [ibanShapeOk] at h
  · simp [ibanShapeOk] at h
  · simp [ibanShapeOk] at h
  · simp [ibanShapeOk] at h
  · simp only [ibanShapeOk, Bool.and_eq_true, decide_eq_true_eq] at h
    obtain ⟨⟨⟨⟨⟨⟨hu1, hu2⟩, hd1⟩, hd2⟩, hall⟩, h11⟩, h30⟩ := h
    refine ⟨?_, by simp; omega, by simp; omega⟩
    simp only [List.all_cons, Bool.and_eq_true, Bool.or_eq_true]
    refine ⟨Or.inr hu1, Or.inr hu2, Or.inl hd1, Or.inl hd2, ?_⟩
    rw [List.all_eq_true]
    intro c hc
    have h2 := List.all_eq_true.mp hall c hc
    simp only [Bool.or_eq_true] at h2 ⊢
    exact h2.symm

/-! ## Per-family helper lemmas -/

theorem matchAllUnique_value {text : String} {re : RE} {v : String}
    (hv : v ∈ matchAllUnique text re) : v ≠ "" ∧ noEdgeWsB v = true := by
  obtain ⟨hne, x, _, rfl⟩ := matchAllUnique_src hv
  exact ⟨hne, noEdgeWs_trimS _⟩

theorem string_ne_empty_of_data {v : String} (h : v.data ≠ []) : v ≠ "" := by
  intro he
  rw [he] at h
  exact h rfl

theorem findSsnLast4_value {text : String} {v : String}
    (hv : v ∈ findSsnLast4 text) :
    v ≠ "" ∧ noEdgeWsB v = true ∧ v.data.length = 4 ∧
      v.data.all isDigitC = true := by
  unfold findSsnLast4 at hv
  rcases List.mem_map.mp hv with ⟨p, hp, rfl⟩
  rcases List.mem_map.mp (dedupPairs_subset hp) with ⟨l4, hl4, rfl⟩
  rcases List.mem_filter.mp hl4 with ⟨_, hpred⟩
  simp only [isDigits, Bool.and_eq_true, decide_eq_true_eq] at hpred
  obtain ⟨⟨hlen, hall⟩, _⟩ := hpred
  refine ⟨string_ne_empty_of_data ?_, noEdgeWs_of_digits hall, hlen, hall⟩
  intro he
  rw [he] at hlen
  simp at hlen

theorem findCreditCards_src {text : String} {v : String}
    (hv : v ∈ findCreditCards text) :
    ∃ c ∈ (cardCandidates text).filter cardLenOk,
      cardAccept text c.1 c.2 = true ∧ c.2 = v := by
  unfold findCreditCards at hv
  rcases List.mem_map.mp hv with ⟨p, hp, rfl⟩
  rcases List.mem_map.mp (dedupPairs_subset hp) with ⟨c, hc, rfl⟩
  rcases List.mem_filter.mp hc with ⟨hcl, haccept⟩
  exact ⟨c, hcl, haccept, rfl⟩

theorem findCreditCards_value {text : String} {v : String}
    (hv : v ∈ findCreditCards text) : v ≠ "" ∧ noEdgeWsB v = true := by
  obtain ⟨c, hcl, _, rfl⟩ := findCreditCards_src hv
  rcases List.mem_filter.mp hcl with ⟨hcand, hlen⟩
  simp only [cardLenOk, Bool.and_eq_true, decide_eq_true_eq] at hlen
  have hne : c.2.data ≠ [] := by
    intro he
    have : (digitsOnly c.2).data.length = 0 := by
      simp [digitsOnly, he]
    omega
  rcases List.mem_map.mp hcand with ⟨m, _, hm⟩
  have hv2 : c.2 = trimS m.whole := by rw [← hm]
  exact ⟨string_ne_empty_of_data hne, by rw [hv2]; exact noEdgeWs_trimS _⟩

theorem digitsOnly_length_le (s : String) :
    (digitsOnly s).data.length ≤ s.data.length := by
  simp only [digitsOnly]
  exact List.length_filter_le _ _

theorem bank_branch_value {text : String} {p : String × String}
    (hp : p ∈ ibanPairs text ++ routingPairs text ++ accountPairs text ++
      sortCodePairs text) :
    p.2 ≠ "" ∧ noEdgeWsB p.2 = true := by
  rcases List.mem_append.mp hp with hp | hsort
  rcases List.mem_append.mp hp with hp | hacct
  rcases List.mem_append.mp hp with hiban | hrout
  · -- IBAN branch: trimmed raw validated by isValidIban on its normal form
    unfold ibanPairs at hiban
    rcases List.mem_map.mp hiban with ⟨raw, hraw, rfl⟩
    rcases List.mem_filter.mp hraw with ⟨hrawS, hvalid⟩
    rcases List.mem_map.mp hrawS with ⟨m, _, rfl⟩
    refine ⟨string_ne_empty_of_data ?_, noEdgeWs_trimS _⟩
    intro he
    have he2 : (trimS m.whole).data = [] := he
    unfold isValidIban at hvalid
    have hnorm : (ibanNormalize (trimS m.whole)).data = [] := by
      simp [ibanNormalize, he2]
    rw [hnorm] at hvalid
    simp [ibanShapeOk] at hvalid
  · -- routing branch: nine digits
    unfold routingPairs at hrout
    rcases List.mem_map.mp hrout with ⟨raw, hraw, rfl⟩
    rcases List.mem_filter.mp hraw with ⟨_, hpred⟩
    simp only [isDigits, Bool.and_eq_true, decide_eq_true_eq] at hpred
    refine ⟨string_ne_empty_of_data ?_, noEdgeWs_of_digits hpred.2⟩
    intro he
    have he2 : raw.data = [] := he
    rw [he2] at hpred
    simp at hpred
  · -- account branch: six to seventeen digits
    unfold accountPairs at hacct
    rcases List.mem_map.mp hacct with ⟨raw, hraw, rfl⟩
    rcases List.mem_filter.mp hraw with ⟨_, hpred⟩
    simp only [Bool.and_eq_true, decide_eq_true_eq] at hpred
    refine ⟨string_ne_empty_of_data ?_, noEdgeWs_of_digits hpred.2⟩
    intro he
    have he2 : raw.data = [] := he
    rw [he2] at hpred
    simp at hpred
  · -- sort-code branch: trimmed capture with six digits inside
    unfold sortCodePairs at hsort
    rcases List.mem_map.mp hsort with ⟨raw, hraw, rfl⟩
    rcases List.mem_filter.mp hraw with ⟨hrawS, hd6⟩
    rcases List.mem_map.mp hrawS with ⟨m, _, rfl⟩
    simp only [decide_eq_true_eq] at hd6
    refine ⟨string_ne_empty_of_data ?_, noEdgeWs_trimS _⟩
    intro he
    have he2 : (trimS (capGet m.caps 1)).data = [] := he
    have hle := digitsOnly_length_le (trimS (capGet m.caps 1))
    rw [he2] at hle
    simp only [List.length_nil, Nat.le_zero] at hle
    omega

theorem findBankAccounts_value {text : String} {v : String}
    (hv : v ∈ findBankAccounts text) : v ≠ "" ∧ noEdgeWsB v = true := by
  unfold findBankAccounts bankKeyed at hv
  rcases List.mem_map.mp hv with ⟨p, hp, rfl⟩
  exact bank_branch_value (dedupPairs_subset hp)

/-! ## Order-preservation and key-distinctness helpers -/

theorem dedup_proj_sublist {α : Type} (key val : α → String) :
    ∀ (seen : List String) (l : List α),
    List.Sublist
      ((dedupPairs seen (l.map (fun x => (key x, val x)))).map (fun p => p.2))
      (l.map val) := by
  intro seen l
  induction l generalizing seen with
  | nil => simp [dedupPairs]
  | cons v rest ih =>
    simp only [List.map_cons]
    rw [dedupPairs]
    split
    · exact List.Sublist.cons _ (ih _)
    · simp only [List.map_cons]
      exact List.Sublist.cons₂ _ (ih _)

theorem matchAllUnique_sublist (text : String) (re : RE) :
    List.Sublist (matchAllUnique text re) (rawStream text re) := by
  unfold matchAllUnique rawStream
  have h := dedup_proj_sublist lowerS (fun x => x) []
    (((execAll re text).map (fun m => trimS m.whole)).filter
      (fun raw => raw ≠ ""))
  rw [List.map_id'] at h
  exact h.trans (List.filter_sublist _)

theorem findSsnLast4_sublist (text : String) :
    List.Sublist (findSsnLast4 text)
      ((execAll SSN_LAST4_CONTEXT_RE text).map
        (fun m => trimS (capGet m.caps 1))) := by
  unfold findSsnLast4
  have h := dedup_proj_sublist (fun x => x) (fun x => x) []
    (((execAll SSN_LAST4_CONTEXT_RE text).map
        (fun m => trimS (capGet m.caps 1))).filter
      (fun last4 =>
        isDigits 4 last4 &&
        !(1900 ≤ decVal last4 && decVal last4 ≤ 2099)))
  rw [List.map_id'] at h
  exact h.trans (List.filter_sublist _)

theorem findCreditCards_sublist (text : String) :
    List.Sublist (findCreditCards text) (rawStream text CARD_CANDIDATE_RE) := by
  unfold findCreditCards rawStream
  have h := dedup_proj_sublist (fun c : Nat × String => digitsOnly c.2)
    (fun c : Nat × String => c.2) []
    ((((execAll CARD_CANDIDATE_RE text).map
          (fun m => (m.start, trimS m.whole))).filter
        (fun c => 13 ≤ (digitsOnly c.2).data.length &&
                  (digitsOnly c.2).data.length ≤ 19)).filter
      (fun c => cardAccept text c.1 c.2))
  have ha : List.Sublist
      ((((execAll CARD_CANDIDATE_RE text).map
            (fun m => (m.start, trimS m.whole))).filter
          (fun c => 13 ≤ (digitsOnly c.2).data.length &&
                    (digitsOnly c.2).data.length ≤ 19)).filter
        (fun c => cardAccept text c.1 c.2))
      ((execAll CARD_CANDIDATE_RE text).map (fun m => (m.start, trimS m.whole))) :=
    (List.filter_sublist _).trans (List.filter_sublist _)
  have hb := ha.map (fun c : Nat × String => c.2)
  rw [List.map_map] at hb
  exact h.trans hb

theorem findBankAccounts_sublist (text : String) :
    List.Sublist (findBankAccounts text)
      ((ibanPairs text ++ routingPairs text ++ accountPairs text ++
        sortCodePairs text).map (fun p => p.2)) := by
  unfold findBankAccounts bankKeyed
  exact (dedupPairs_sublist [] _).map (fun p => p.2)

theorem matchAllUnique_pairwise (text : String) (re : RE) :
    List.Pairwise (fun a b => lowerS a ≠ lowerS b) (matchAllUnique text re) := by
  unfold matchAllUnique
  apply pairwise_key_dedup lowerS
  intro x hx
  rcases List.mem_map.mp hx with ⟨raw, _, rfl⟩
  rfl

theorem findSsnLast4_pairwise (text : String) :
    List.Pairwise (fun a b => lowerS a ≠ lowerS b) (findSsnLast4 text) := by
  have h := pairwise_key_dedup id
    ((((execAll SSN_LAST4_CONTEXT_RE text).map
          (fun m => trimS (capGet m.caps 1))).filter
        (fun last4 =>
          isDigits 4 last4 &&
          !(1900 ≤ decVal last4 && decVal last4 ≤ 2099))).map
      (fun last4 => (last4, last4)))
    (by intro x hx; rcases List.mem_map.mp hx with ⟨l4, _, rfl⟩; rfl)
  refine (List.Pairwise.imp_of_mem ?_ h)
  intro a b ha hb hne heq
  have hda := (@findSsnLast4_value text a ha).2.2.2
  have hdb := (@findSsnLast4_value text b hb).2.2.2
  apply hne
  show a = b
  rw [← lowerS_digits hda, ← lowerS_digits hdb, heq]

theorem findCreditCards_pairwise (text : String) :
    List.Pairwise (fun a b => digitsOnly a ≠ digitsOnly b)
      (findCreditCards text) := by
  unfold findCreditCards
  apply pairwise_key_dedup digitsOnly
  intro x hx
  rcases List.mem_map.mp hx with ⟨c, _, rfl⟩
  rfl

theorem ssn_family_pairwise (text : String) :
    List.Pairwise (fun a b => lowerS a ≠ lowerS b)
      (matchAllUnique text SSN_RE ++ findSsnLast4 text) := by
  rw [List.pairwise_append]
  refine ⟨matchAllUnique_pairwise text SSN_RE, findSsnLast4_pairwise text, ?_⟩
  intro a ha b hb heq
  have h11 : a.data.length = 11 := ssn_value_len ha
  have h4 : b.data.length = 4 := (findSsnLast4_value hb).2.2.1
  have hla := lowerS_length a
  have hlb := lowerS_length b
  rw [heq] at hla
  omega

theorem valuesOfType_append (t : SensitiveType) (l1 l2 : List SensitiveMatch) :
    valuesOfType t (l1 ++ l2) = valuesOfType t l1 ++ valuesOfType t l2 := by
  unfold valuesOfType
  rw [List.filter_append, List.map_append]

theorem valuesOfType_tag_same (t : SensitiveType) (l : List String) :
    valuesOfType t (l.map (fun v => ⟨t, v⟩)) = l := by
  unfold valuesOfType
  rw [List.filter_map]
  have hp : ((fun m : SensitiveMatch => decide (m.type = t)) ∘
      (fun v => (⟨t, v⟩ : SensitiveMatch))) = fun _ => true := by
    funext v
    simp
  rw [hp, List.filter_true, List.map_map]
  have hv : ((fun m : SensitiveMatch => m.value) ∘
      (fun v => (⟨t, v⟩ : SensitiveMatch))) = fun v => v := by
    funext v
    rfl
  rw [hv, List.map_id']

theorem valuesOfType_tag_other {t t2 : SensitiveType} (hne : t2 ≠ t)
    (l : List String) :
    valuesOfType t (l.map (fun v => ⟨t2, v⟩)) = [] := by
  unfold valuesOfType
  rw [List.filter_map]
  have hp : ((fun m : SensitiveMatch => decide (m.type = t)) ∘
      (fun v => (⟨t2, v⟩ : SensitiveMatch))) = fun _ => false := by
    funext v
    simp [hne]
  rw [hp, List.filter_false]
  rfl

/-- Computation of the per-type value lists of the combined result. -/
theorem valuesOfType_eq (text : String) :
    valuesOfType .email (findSensitiveMatches text) = matchAllUnique text EMAIL_RE ∧
    valuesOfType .ssn (findSensitiveMatches text) =
      matchAllUnique text SSN_RE ++ findSsnLast4 text ∧
    valuesOfType .phone (findSensitiveMatches text) = matchAllUnique text PHONE_RE ∧
    valuesOfType .card (findSensitiveMatches text) = findCreditCards text ∧
    valuesOfType .bank (findSensitiveMatches text) = findBankAccounts text ∧
    valuesOfType .insurancePolicy (findSensitiveMatches text) =
      matchAllUnique text INS_POLICY_RE ∧
    valuesOfType .employeeId (findSensitiveMatches text) =
      matchAllUnique text EMPLOYEE_ID_RE ∧
    valuesOfType .medicalRecordNumber (findSensitiveMatches text) =
      matchAllUnique text MRN_RE := by
  refine ⟨?_, ?_, ?_, ?_, ?_, ?_, ?_, ?_⟩ <;>
    simp [findSensitiveMatches, valuesOfType_append, valuesOfType_tag_same,
      valuesOfType_tag_other]

/-! ## First-seen retention lemmas

The JavaScript `Map` of each scanner stores, for every key, the value of
the first stream element carrying that key.  `dedupPairs_first` states
this for the pair streams; the per-family lemmas transport it along the
`map`/`filter` structure of each scanner. -/

theorem dedupPairs_first {seen : List String} {L : List (String × String)}
    {p : String × String} (h : p ∈ dedupPairs seen L) :
    L.find? (fun q => q.1 == p.1) = some p := by
  induction L generalizing seen with
  | nil => simp [dedupPairs] at h
  | cons q rest ih =>
    rw [dedupPairs] at h
    split at h
    · rename_i hq
      have hne : ¬((fun q2 : String × String => q2.1 == p.1) q = true) := by
        simp only [beq_iff_eq]
        intro he
        exact dedupPairs_key_not_seen h (he ▸ hq)
      rw [List.find?_cons_of_neg rest hne]
      exact ih h
    · rename_i hq
      rcases List.mem_cons.mp h with rfl | h
      · exact List.find?_cons_of_pos rest (beq_self_eq_true p.1)
      · have hne : ¬((fun q2 : String × String => q2.1 == p.1) q = true) := by
          simp only [beq_iff_eq]
          intro he
          exact dedupPairs_key_not_seen h (he ▸ List.mem_cons_self _ _)
        rw [List.find?_cons_of_neg rest hne]
        exact ih h

theorem dedup_map_first {α : Type} (key val : α → String) (l : List α)
    {p : String × String}
    (hp : p ∈ dedupPairs [] (l.map (fun x => (key x, val x)))) :
    ∃ x0, l.find? (fun x => key x == p.1) = some x0 ∧
      key x0 = p.1 ∧ val x0 = p.2 := by
  have h := dedupPairs_first hp
  rw [List.find?_map] at h
  cases hf : l.find?
      ((fun q : String × String => q.1 == p.1) ∘ (fun x => (key x, val x))) with
  | none =>
    rw [hf] at h
    simp at h
  | some x0 =>
    rw [hf] at h
    have h2 : ((key x0, val x0) : String × String) = p := by
      have h3 : (some (key x0, val x0) : Option (String × String)) = some p := h
      exact Option.some.inj h3
    refine ⟨x0, ?_, ?_, ?_⟩
    · exact hf
    · rw [← h2]
    · rw [← h2]

/-- Elements removed by a filter that cannot satisfy the search predicate
do not change the first hit. -/
theorem find?_filter_agree {p q : String → Bool} {l : List String}
    (h : ∀ x ∈ l, q x = false → p x = false) :
    (l.filter q).find? p = l.find? p := by
  induction l with
  | nil => rfl
  | cons a rest ih =>
    by_cases hq : q a = true
    · rw [List.filter_cons_of_pos hq]
      by_cases hp : p a = true
      · rw [List.find?_cons_of_pos _ hp, List.find?_cons_of_pos _ hp]
      · rw [List.find?_cons_of_neg _ hp, List.find?_cons_of_neg _ hp]
        exact ih (fun x hx => h x (List.mem_cons_of_mem _ hx))
    · have hq2 : q a = false := by
        cases hval : q a
        · rfl
        · exact absurd hval hq
      rw [List.filter_cons_of_neg (by rw [hq2]; exact Bool.false_ne_true)]
      have hpa : ¬(p a = true) := by
        rw [h a (List.mem_cons_self _ _) hq2]
        exact Bool.false_ne_true
      rw [List.find?_cons_of_neg _ hpa]
      exact ih (fun x hx => h x (List.mem_cons_of_mem _ hx))

theorem lowerS_ne_empty {v : String} (h : v ≠ "") : lowerS v ≠ "" := by
  intro he
  apply h
  have h1 : (lowerS v).data.length = 0 := by rw [he]; rfl
  rw [lowerS_length] at h1
  cases hd : v.data with
  | nil =>
    cases v with
    | mk d =>
      simp at hd
      rw [hd]
  | cons c t => rw [hd] at h1; simp at h1

/-- In `matchAllUnique`, the surface form kept for a key is the first
trimmed raw match of the stream carrying that (lower-cased) key. -/
theorem matchAllUnique_first {text : String} {re : RE} {v : String}
    (hv : v ∈ matchAllUnique text re) :
    (rawStream text re).find? (fun x => lowerS x == lowerS v) = some v := by
  unfold matchAllUnique at hv
  rcases List.mem_map.mp hv with ⟨p, hp, rfl⟩
  obtain ⟨x0, hf, hk, hval⟩ := dedup_map_first lowerS (fun x => x) _ hp
  rcases List.mem_map.mp (dedupPairs_subset hp) with ⟨raw, hraw, heq⟩
  have hp1 : p.1 = lowerS p.2 := by rw [← heq]
  have hne : p.2 ≠ "" := by
    rcases List.mem_filter.mp hraw with ⟨_, hr⟩
    have hr2 : raw ≠ "" := by simpa using hr
    have : raw = p.2 := by rw [← heq]
    rw [← this]
    exact hr2
  rw [hp1] at hf
  rw [find?_filter_agree ?hbr] at hf
  case hbr =>
    intro x _ hx
    have hxe : x = "" := by
      cases hval2 : decide (x ≠ "") with
      | true => rw [hval2] at hx; exact absurd hx (by decide)
      | false => simpa using hval2
    rw [hxe]
    simp only [beq_eq_false_iff_ne]
    intro he2
    exact lowerS_ne_empty hne he2.symm
  have hx0 : x0 = p.2 := hval
  rw [hx0] at hf
  exact hf

/-- In `findSsnLast4`, the kept value is the first capture of the stream
equal to it (keys are the values themselves). -/
theorem findSsnLast4_first {text : String} {v : String}
    (hv : v ∈ findSsnLast4 text) :
    ((execAll SSN_LAST4_CONTEXT_RE text).map
      (fun m => trimS (capGet m.caps 1))).find? (fun x => x == v) = some v := by
  unfold findSsnLast4 at hv
  rcases List.mem_map.mp hv with ⟨p, hp, rfl⟩
  obtain ⟨x0, hf, hk, hval⟩ := dedup_map_first (fun x => x) (fun x => x) _ hp
  rcases List.mem_map.mp (dedupPairs_subset hp) with ⟨l4, hl4, heq⟩
  have hp1 : p.1 = p.2 := by rw [← heq]
  have hl4p : l4 = p.2 := by rw [← heq]
  rw [hp1] at hf
  rw [find?_filter_agree ?hbr] at hf
  case hbr =>
    intro x _ hx
    simp only [beq_eq_false_iff_ne]
    intro he2
    rcases List.mem_filter.mp hl4 with ⟨_, hpass⟩
    rw [hl4p] at hpass
    rw [he2] at hx
    rw [hpass] at hx
    exact absurd hx (by decide)
  have hx0 : x0 = p.2 := hval
  rw [hx0] at hf
  exact hf

/-- In `findCreditCards`, the surface form kept for a digit key is the
first accepted candidate of the stream with those digits. -/
theorem findCreditCards_first {text : String} {v : String}
    (hv : v ∈ findCreditCards text) :
    ((((cardCandidates text).filter cardLenOk).filter
        (fun c => cardAccept text c.1 c.2)).map (fun c => c.2)).find?
      (fun x => digitsOnly x == digitsOnly v) = some v := by
  have hfc : findCreditCards text =
      (dedupPairs []
        ((((cardCandidates text).filter cardLenOk).filter
            (fun c => cardAccept text c.1 c.2)).map
          (fun c => (digitsOnly c.2, c.2)))).map (fun p => p.2) := rfl
  rw [hfc] at hv
  rcases List.mem_map.mp hv with ⟨p, hp, rfl⟩
  obtain ⟨c0, hf, hk, hval⟩ :=
    dedup_map_first (fun c : Nat × String => digitsOnly c.2)
      (fun c : Nat × String => c.2) _ hp
  rcases List.mem_map.mp (dedupPairs_subset hp) with ⟨c1, _, heq⟩
  have hp1 : p.1 = digitsOnly p.2 := by rw [← heq]
  rw [List.find?_map]
  have hpred : ((fun x => digitsOnly x == digitsOnly p.2) ∘
      (fun c : Nat × String => c.2)) = fun c : Nat × String =>
      digitsOnly c.2 == digitsOnly p.2 := rfl
  rw [hpred]
  rw [hp1] at hf
  rw [hf]
  show some c0.2 = some p.2
  rw [hval]

/-- In `findBankAccounts`, the stored pair for a namespaced key is the
first branch pair carrying that key. -/
theorem bankKeyed_first {text : String} {p : String × String}
    (hp : p ∈ bankKeyed text) :
    (ibanPairs text ++ routingPairs text ++ accountPairs text ++
      sortCodePairs text).find? (fun q => q.1 == p.1) = some p :=
  dedupPairs_first hp

/-! ## Claim theorems -/

/-- C1 counterexample: the claimed family order (email, phone, ssn, ...)
does not hold — on a text containing both an SSN and a phone number the
engine returns the ssn match before the phone match, so the returned list
differs from the concatenation taken in the claimed order. -/
theorem C1_order_counterexample :
    findSensitiveMatches "123-45-6789 2125551212" =
      [⟨.ssn, "123-45-6789"⟩, ⟨.phone, "2125551212"⟩] ∧
    findSensitiveMatches "123-45-6789 2125551212" ≠
      ((matchAllUnique "123-45-6789 2125551212" EMAIL_RE).map
        (fun v => ⟨.email, v⟩) ++
      (matchAllUnique "123-45-6789 2125551212" PHONE_RE).map
        (fun v => ⟨.phone, v⟩) ++
      (matchAllUnique "123-45-6789 2125551212" SSN_RE).map
        (fun v => ⟨.ssn, v⟩) ++
      (findSsnLast4 "123-45-6789 2125551212").map (fun v => ⟨.ssn, v⟩) ++
      (findCreditCards "123-45-6789 2125551212").map (fun v => ⟨.card, v⟩) ++
      (findBankAccounts "123-45-6789 2125551212").map (fun v => ⟨.bank, v⟩) ++
      (matchAllUnique "123-45-6789 2125551212" INS_POLICY_RE).map
        (fun v => ⟨.insurancePolicy, v⟩) ++
      (matchAllUnique "123-45-6789 2125551212" EMPLOYEE_ID_RE).map
        (fun v => ⟨.employeeId, v⟩) ++
      (matchAllUnique "123-45-6789 2125551212" MRN_RE).map
        (fun v => ⟨.medicalRecordNumber, v⟩)) :=
  ⟨by decide, by decide⟩

/-- C1 (amended): for every input text, `findSensitiveMatches` returns
the concatenation of the per-family results in the fixed order emitted by
the code — email, ssn (direct then last-4), phone, card, bank (IBAN,
routing, account, sort-code fed into one shared map in that order),
insurancePolicy, employeeId, medicalRecordNumber; and each family list is
a subsequence of its in-document-order candidate stream, so
first-occurrence order is preserved within each family. -/
theorem C1_fixed_order (text : String) :
    (findSensitiveMatches text =
      (matchAllUnique text EMAIL_RE).map (fun v => ⟨.email, v⟩) ++
      (matchAllUnique text SSN_RE).map (fun v => ⟨.ssn, v⟩) ++
      (findSsnLast4 text).map (fun v => ⟨.ssn, v⟩) ++
      (matchAllUnique text PHONE_RE).map (fun v => ⟨.phone, v⟩) ++
      (findCreditCards text).map (fun v => ⟨.card, v⟩) ++
      (findBankAccounts text).map (fun v => ⟨.bank, v⟩) ++
      (matchAllUnique text INS_POLICY_RE).map (fun v => ⟨.insurancePolicy, v⟩) ++
      (matchAllUnique text EMPLOYEE_ID_RE).map (fun v => ⟨.employeeId, v⟩) ++
      (matchAllUnique text MRN_RE).map (fun v => ⟨.medicalRecordNumber, v⟩)) ∧
    List.Sublist (matchAllUnique text EMAIL_RE) (rawStream text EMAIL_RE) ∧
    List.Sublist (matchAllUnique text SSN_RE) (rawStream text SSN_RE) ∧
    List.Sublist (findSsnLast4 text)
      ((execAll SSN_LAST4_CONTEXT_RE text).map
        (fun m => trimS (capGet m.caps 1))) ∧
    List.Sublist (matchAllUnique text PHONE_RE) (rawStream text PHONE_RE) ∧
    List.Sublist (findCreditCards text) (rawStream text CARD_CANDIDATE_RE) ∧
    List.Sublist (findBankAccounts text)
      ((ibanPairs text ++ routingPairs text ++ accountPairs text ++
        sortCodePairs text).map (fun p => p.2)) ∧
    List.Sublist (matchAllUnique text INS_POLICY_RE)
      (rawStream text INS_POLICY_RE) ∧
    List.Sublist (matchAllUnique text EMPLOYEE_ID_RE)
      (rawStream text EMPLOYEE_ID_RE) ∧
    List.Sublist (matchAllUnique text MRN_RE) (rawStream text MRN_RE) :=
  ⟨rfl, matchAllUnique_sublist text EMAIL_RE, matchAllUnique_sublist text SSN_RE,
    findSsnLast4_sublist text, matchAllUnique_sublist text PHONE_RE,
    findCreditCards_sublist text, findBankAccounts_sublist text,
    matchAllUnique_sublist text INS_POLICY_RE,
    matchAllUnique_sublist text EMPLOYEE_ID_RE,
    matchAllUnique_sublist text MRN_RE⟩

/-- C2: for every input text, within each semantic type no two returned
values share a normalized key — the lower-cased (trimmed) text for email,
ssn (where 11-character direct matches cannot collide with 4-digit last-4
values), phone and the prefix-coded families; the digits-only form for
card; and for bank the namespaced keys (`routing:`/`account:`/`sort:`
prefixed digits or the normalized IBAN) of the single insertion-ordered
map, which are pairwise distinct — and within each family the retained
surface form is the first-seen one: each returned value is the first
element of its family's candidate stream carrying its normalized key. -/
theorem C2_normalized_keys (text : String) :
    List.Pairwise (fun a b => lowerS a ≠ lowerS b)
      (valuesOfType .email (findSensitiveMatches text)) ∧
    List.Pairwise (fun a b => lowerS a ≠ lowerS b)
      (valuesOfType .ssn (findSensitiveMatches text)) ∧
    List.Pairwise (fun a b => lowerS a ≠ lowerS b)
      (valuesOfType .phone (findSensitiveMatches text)) ∧
    List.Pairwise (fun a b => digitsOnly a ≠ digitsOnly b)
      (valuesOfType .card (findSensitiveMatches text)) ∧
    valuesOfType .bank (findSensitiveMatches text) =
      (bankKeyed text).map (fun p => p.2) ∧
    List.Pairwise (fun a b => a.1 ≠ b.1) (bankKeyed text) ∧
    List.Pairwise (fun a b => lowerS a ≠ lowerS b)
      (valuesOfType .insurancePolicy (findSensitiveMatches text)) ∧
    List.Pairwise (fun a b => lowerS a ≠ lowerS b)
      (valuesOfType .employeeId (findSensitiveMatches text)) ∧
    List.Pairwise (fun a b => lowerS a ≠ lowerS b)
      (valuesOfType .medicalRecordNumber (findSensitiveMatches text)) ∧
    (∀ v ∈ matchAllUnique text EMAIL_RE,
      (rawStream text EMAIL_RE).find?
        (fun x => lowerS x == lowerS v) = some v) ∧
    (∀ v ∈ matchAllUnique text SSN_RE,
      (rawStream text SSN_RE).find?
        (fun x => lowerS x == lowerS v) = some v) ∧
    (∀ v ∈ findSsnLast4 text,
      ((execAll SSN_LAST4_CONTEXT_RE text).map
        (fun m => trimS (capGet m.caps 1))).find? (fun x => x == v) = some v) ∧
    (∀ v ∈ matchAllUnique text PHONE_RE,
      (rawStream text PHONE_RE).find?
        (fun x => lowerS x == lowerS v) = some v) ∧
    (∀ v ∈ findCreditCards text,
      ((((cardCandidates text).filter cardLenOk).filter
          (fun c => cardAccept text c.1 c.2)).map (fun c => c.2)).find?
        (fun x => digitsOnly x == digitsOnly v) = some v) ∧
    (∀ p ∈ bankKeyed text,
      (ibanPairs text ++ routingPairs text ++ accountPairs text ++
        sortCodePairs text).find? (fun q => q.1 == p.1) = some p) ∧
    (∀ v ∈ matchAllUnique text INS_POLICY_RE,
      (rawStream text INS_POLICY_RE).find?
        (fun x => lowerS x == lowerS v) = some v) ∧
    (∀ v ∈ matchAllUnique text EMPLOYEE_ID_RE,
      (rawStream text EMPLOYEE_ID_RE).find?
        (fun x => lowerS x == lowerS v) = some v) ∧
    (∀ v ∈ matchAllUnique text MRN_RE,
      (rawStream text MRN_RE).find?
        (fun x => lowerS x == lowerS v) = some v) := by
  obtain ⟨he, hs, hp, hc, hb, hi, hemp, hm⟩ := valuesOfType_eq text
  refine ⟨?_, ?_, ?_, ?_, ?_, dedupPairs_pairwise [] _, ?_, ?_, ?_,
    fun v hv => matchAllUnique_first hv,
    fun v hv => matchAllUnique_first hv,
    fun v hv => findSsnLast4_first hv,
    fun v hv => matchAllUnique_first hv,
    fun v hv => findCreditCards_first hv,
    fun p hp2 => bankKeyed_first hp2,
    fun v hv => matchAllUnique_first hv,
    fun v hv => matchAllUnique_first hv,
    fun v hv => matchAllUnique_first hv⟩
  · rw [he]; exact matchAllUnique_pairwise text EMAIL_RE
  · rw [hs]; exact ssn_family_pairwise text
  · rw [hp]; exact matchAllUnique_pairwise text PHONE_RE
  · rw [hc]; exact findCreditCards_pairwise text
  · rw [hb]; rfl
  · rw [hi]; exact matchAllUnique_pairwise text INS_POLICY_RE
  · rw [hemp]; exact matchAllUnique_pairwise text EMPLOYEE_ID_RE
  · rw [hm]; exact matchAllUnique_pairwise text MRN_RE

/-- C2 witness: the MRN retention conjunct discharged on a concrete
result. -/
theorem C2_normalized_keys_witness :
    ("MRN- 998877" : String) ∈ matchAllUnique "MRN- 998877" MRN_RE ∧
    (rawStream "MRN- 998877" MRN_RE).find?
      (fun x => lowerS x == lowerS "MRN- 998877") = some "MRN- 998877" :=
  ⟨by decide,
    (C2_normalized_keys
        "MRN- 998877").2.2.2.2.2.2.2.2.2.2.2.2.2.2.2.2.2
      "MRN- 998877" (by decide)⟩

/-- C3: a card candidate's digits appear among the returned card matches
iff some candidate with those digits has 13-19 digits and either passes
the Luhn checksum or has a card keyword inside its lower-cased
±50-character context window; and the two Luhn example values behave as
stated. -/
theorem C3_card_acceptance :
    (∀ (text dd : String),
      (∃ v ∈ findCreditCards text, digitsOnly v = dd) ↔
      (∃ c ∈ cardCandidates text,
        digitsOnly c.2 = dd ∧
        (13 ≤ dd.data.length ∧ dd.data.length ≤ 19) ∧
        (luhnCheck dd = true ∨
          keywordTest (ctxWindow text c.1 c.2) = true))) ∧
    luhnCheck "4532015112830366" = true ∧
    luhnCheck "4532015112830367" = false := by
  refine ⟨?_, by decide, by decide⟩
  intro text dd
  have hfc : findCreditCards text =
      (dedupPairs []
        ((((cardCandidates text).filter cardLenOk).filter
            (fun c => cardAccept text c.1 c.2)).map
          (fun c => (digitsOnly c.2, c.2)))).map (fun p => p.2) := rfl
  have hkey : ∀ x ∈ (((cardCandidates text).filter cardLenOk).filter
      (fun c => cardAccept text c.1 c.2)).map (fun c => (digitsOnly c.2, c.2)),
      x.1 = digitsOnly x.2 := by
    intro x hx
    rcases List.mem_map.mp hx with ⟨c, _, rfl⟩
    rfl
  rw [hfc]
  refine Iff.trans (mem_key_dedup digitsOnly _ hkey dd) ?_
  constructor
  · rintro ⟨x, hx, hxd⟩
    rcases List.mem_map.mp hx with ⟨c, hc, rfl⟩
    rcases List.mem_filter.mp hc with ⟨hc1, hacc⟩
    rcases List.mem_filter.mp hc1 with ⟨hcand, hlen⟩
    simp only [cardLenOk, Bool.and_eq_true, decide_eq_true_eq] at hlen
    have hdd : digitsOnly c.2 = dd := hxd
    refine ⟨c, hcand, hdd, by rw [← hdd]; exact hlen, ?_⟩
    unfold cardAccept at hacc
    simp only [Bool.or_eq_true] at hacc
    rw [← hdd]
    exact hacc
  · rintro ⟨c, hc, hdd, hlen, hacc⟩
    refine ⟨(digitsOnly c.2, c.2), ?_, hdd⟩
    refine List.mem_map_of_mem _ (List.mem_filter.mpr ⟨List.mem_filter.mpr
      ⟨hc, ?_⟩, ?_⟩)
    · simp only [cardLenOk, Bool.and_eq_true, decide_eq_true_eq]
      rw [hdd]
      exact hlen
    · unfold cardAccept
      simp only [Bool.or_eq_true]
      rw [hdd]
      exact hacc

/-- C4: `isValidIban` accepts exactly the strings passing the strict shape
test whose rearranged letter-expanded digit stream has incremental mod-97
remainder 1; the incremental loop computes exactly the (unreduced) numeric
value modulo 97, and it always completes on strings passing the shape
test. -/
theorem C4_iban_validator :
    (∀ s : String, isValidIban s = true ↔
      (ibanShapeOk s.data = true ∧
        ibanMod97 (s.data.drop 4 ++ s.data.take 4) 0 = some 1)) ∧
    (∀ l : List Char, ibanMod97 l 0 = (ibanNumVal l 0).map (fun n => n % 97)) ∧
    (∀ s : String, ibanShapeOk s.data = true →
      ∃ m, ibanMod97 (s.data.drop 4 ++ s.data.take 4) 0 = some m) := by
  refine ⟨?_, ?_, ?_⟩
  · intro s
    unfold isValidIban
    by_cases hs : ibanShapeOk s.data = true
    · rw [hs]
      simp only [Bool.not_true, Bool.false_eq_true, if_false]
      cases hm : ibanMod97 (s.data.drop 4 ++ s.data.take 4) 0 with
      | none => simp
      | some m =>
        simp only [decide_eq_true_eq, Option.some.injEq, hs, true_and]
    · have hs2 : ibanShapeOk s.data = false := by
        cases hval : ibanShapeOk s.data
        · rfl
        · exact absurd hval hs
      rw [hs2]
      simp
  · intro l
    have h := ibanMod97_eq_numVal l 0
    simpa using h
  · intro s hs
    apply ibanMod97_total
    rw [List.all_eq_true]
    intro c hc
    rcases List.mem_append.mp hc with hc | hc
    · exact List.all_eq_true.mp (ibanShapeOk_all hs).1 c (List.mem_of_mem_drop hc)
    · exact List.all_eq_true.mp (ibanShapeOk_all hs).1 c (List.mem_of_mem_take hc)

/-- C4 witness: the shape hypothesis of the completion conjunct discharged
on the documented test IBAN. -/
theorem C4_iban_validator_witness :
    ∃ m, ibanMod97 (("GB82WEST12345698765432" : String).data.drop 4 ++
      ("GB82WEST12345698765432" : String).data.take 4) 0 = some m :=
  C4_iban_validator.2.2 "GB82WEST12345698765432" (by decide)

/-- C5: a value is returned by the SSN-last-4 scanner iff it is the
trimmed 4-digit capture of some match of the contextual regex whose
numeric value is outside 1900-2099; and the two documented example texts
behave as stated. -/
theorem C5_ssn_last4 :
    (∀ (text d : String),
      d ∈ findSsnLast4 text ↔
      (∃ m ∈ execAll SSN_LAST4_CONTEXT_RE text,
        trimS (capGet m.caps 1) = d ∧ isDigits 4 d = true ∧
        ¬(1900 ≤ decVal d ∧ decVal d ≤ 2099))) ∧
    findSsnLast4 "social security number ending in 8234" = ["8234"] ∧
    findSsnLast4 "social security number ending in 1999" = [] := by
  refine ⟨?_, by decide, by decide⟩
  intro text d
  have hkey : ∀ x ∈ (((execAll SSN_LAST4_CONTEXT_RE text).map
        (fun m => trimS (capGet m.caps 1))).filter
      (fun last4 =>
        isDigits 4 last4 &&
        !(1900 ≤ decVal last4 && decVal last4 ≤ 2099))).map
      (fun last4 => (last4, last4)),
      x.1 = (fun y : String => y) x.2 := by
    intro x hx
    rcases List.mem_map.mp hx with ⟨l4, _, rfl⟩
    rfl
  have hiff := mem_key_dedup (fun y : String => y) _ hkey d
  unfold findSsnLast4
  constructor
  · intro hd
    rcases hiff.mp ⟨d, hd, rfl⟩ with ⟨x, hx, hxd⟩
    rcases List.mem_map.mp hx with ⟨l4, hl4, rfl⟩
    have hld : l4 = d := hxd
    subst hld
    rcases List.mem_filter.mp hl4 with ⟨hstream, hpred⟩
    rcases List.mem_map.mp hstream with ⟨m, hm, rfl⟩
    simp only [Bool.and_eq_true, Bool.not_eq_true', Bool.and_eq_false_iff,
      decide_eq_true_eq, decide_eq_false_iff_not] at hpred
    refine ⟨m, hm, rfl, by simp [hpred.1], ?_⟩
    rintro ⟨h1900, h2099⟩
    rcases hpred.2 with h2 | h2
    · exact h2 h1900
    · exact h2 h2099
  · rintro ⟨m, hm, hd, h4, hrange⟩
    have hmem : d ∈ ((execAll SSN_LAST4_CONTEXT_RE text).map
        (fun m => trimS (capGet m.caps 1))).filter
      (fun last4 =>
        isDigits 4 last4 &&
        !(1900 ≤ decVal last4 && decVal last4 ≤ 2099)) := by
      refine List.mem_filter.mpr ⟨?_, ?_⟩
      · exact List.mem_map.mpr ⟨m, hm, hd⟩
      · simp only [Bool.and_eq_true, Bool.not_eq_true', Bool.and_eq_false_iff,
          decide_eq_true_eq, decide_eq_false_iff_not]

        refine ⟨by simpa using h4, ?_⟩
        by_cases h1 : 1900 ≤ decVal d
        · right
          intro h2
          exact hrange ⟨h1, h2⟩
        · left
          exact h1
    rcases hiff.mpr ⟨(d, d), List.mem_map_of_mem _ hmem, rfl⟩ with ⟨v, hv, hvd⟩
    have : v = d := hvd
    rw [← this]
    exact hv

/-- C6 counterexample: on the text "sort code 12-34-56" the sort-code
scanner returns the captured group "12-34-56" with its separators — not a
bare 6-digit string as the claim states. -/
theorem C6_sort_code_counterexample :
    findBankAccounts "sort code 12-34-56" = ["12-34-56"] ∧
    ¬(("12-34-56" : String).data.all isDigitC = true ∧
      ("12-34-56" : String).data.length = 6) :=
  ⟨by decide, by decide⟩

/-- C6 amended: every value produced by the sort-code scanner is the
trimmed captured group — three 2-digit groups possibly separated by dash
or space — whose digits-only form has exactly 6 digits; it is a bare
6-digit string only when the text carried no separators. -/
theorem C6_sort_code_value (text : String) (v : String)
    (hv : v ∈ (sortCodePairs text).map (fun p => p.2)) :
    (digitsOnly v).data.length = 6 ∧ noEdgeWsB v = true := by
  rcases List.mem_map.mp hv with ⟨p, hp, rfl⟩
  unfold sortCodePairs at hp
  rcases List.mem_map.mp hp with ⟨raw, hraw, rfl⟩
  rcases List.mem_filter.mp hraw with ⟨hrawS, hd6⟩
  rcases List.mem_map.mp hrawS with ⟨m, _, rfl⟩
  simp only [decide_eq_true_eq] at hd6
  exact ⟨hd6, noEdgeWs_trimS _⟩

/-- C6 witness: the amended statement instantiated on the counterexample
text. -/
theorem C6_sort_code_value_witness :
    ("12-34-56" : String) ∈
      (sortCodePairs "sort code 12-34-56").map (fun p => p.2) ∧
    (digitsOnly "12-34-56").data.length = 6 ∧ noEdgeWsB "12-34-56" = true :=
  ⟨by decide, C6_sort_code_value "sort code 12-34-56" "12-34-56" (by decide)⟩

/-- C7: the documented test IBAN validates, and every string obtained from
it by replacing exactly one digit character with a different decimal digit
fails validation. -/
theorem C7_iban_mutations :
    isValidIban "GB82WEST12345698765432" = true ∧
    (digitMutations "GB82WEST12345698765432").all
      (fun s => !isValidIban s) = true :=
  ⟨by decide, by decide⟩

/-- C8: for every input text, every returned match value is a non-empty
string with no leading or trailing whitespace. -/
theorem C8_values_trimmed (text : String) :
    ∀ m ∈ findSensitiveMatches text, m.value ≠ "" ∧ noEdgeWsB m.value = true := by
  intro m hm
  unfold findSensitiveMatches at hm
  simp only [List.mem_append] at hm
  rcases hm with ((((((((hm | hm) | hm) | hm) | hm) | hm) | hm) | hm) | hm)
  · obtain ⟨v, hv, rfl⟩ := List.mem_map.mp hm
    exact matchAllUnique_value hv
  · obtain ⟨v, hv, rfl⟩ := List.mem_map.mp hm
    exact matchAllUnique_value hv
  · obtain ⟨v, hv, rfl⟩ := List.mem_map.mp hm
    exact ⟨(findSsnLast4_value hv).1, (findSsnLast4_value hv).2.1⟩
  · obtain ⟨v, hv, rfl⟩ := List.mem_map.mp hm
    exact matchAllUnique_value hv
  · obtain ⟨v, hv, rfl⟩ := List.mem_map.mp hm
    exact findCreditCards_value hv
  · obtain ⟨v, hv, rfl⟩ := List.mem_map.mp hm
    exact findBankAccounts_value hv
  · obtain ⟨v, hv, rfl⟩ := List.mem_map.mp hm
    exact matchAllUnique_value hv
  · obtain ⟨v, hv, rfl⟩ := List.mem_map.mp hm
    exact matchAllUnique_value hv
  · obtain ⟨v, hv, rfl⟩ := List.mem_map.mp hm
    exact matchAllUnique_value hv

/-- C8 witness: the membership hypothesis discharged on a concrete
result. -/
theorem C8_values_trimmed_witness :
    (⟨.insurancePolicy, "INS-44556677"⟩ : SensitiveMatch) ∈
      findSensitiveMatches "INS-44556677" ∧
    ("INS-44556677" : String) ≠ "" ∧ noEdgeWsB "INS-44556677" = true :=
  ⟨by decide, C8_values_trimmed "INS-44556677"
    ⟨.insurancePolicy, "INS-44556677"⟩ (by decide)⟩

/-- C9: the three documented prefix-identifier examples are detected with
their stated types and surface forms. -/
theorem C9_prefix_identifiers :
    findSensitiveMatches "INS-44556677" =
      [⟨.insurancePolicy, "INS-44556677"⟩] ∧
    findSensitiveMatches "EMP-2024-5567" = [⟨.employeeId, "EMP-2024-5567"⟩] ∧
    findSensitiveMatches "MRN- 998877" =
      [⟨.medicalRecordNumber, "MRN- 998877"⟩] :=
  ⟨by decide, by decide, by decide⟩

/-- C10: `luhnCheck` is total — any string containing a non-digit yields
`false`, the empty string yields `true`, and on all-digit strings the
non-digit failure branch is unreachable (the check equals the pure Luhn
sum test); moreover every candidate on which `findCreditCards` invokes it
is digits-only with 13-19 digits. -/
theorem C10_luhn_total :
    (∀ s : String, (∃ c ∈ s.data, isDigitC c = false) → luhnCheck s = false) ∧
    luhnCheck "" = true ∧
    (∀ s : String, s.data.all isDigitC = true →
      luhnCheck s = decide (luhnSum s.data.reverse false % 10 = 0)) ∧
    (∀ text : String, ∀ c ∈ (cardCandidates text).filter cardLenOk,
      (digitsOnly c.2).data.all isDigitC = true ∧
      13 ≤ (digitsOnly c.2).data.length ∧
      (digitsOnly c.2).data.length ≤ 19) := by
  refine ⟨?_, by decide, ?_, ?_⟩
  · rintro s ⟨c, hc, hcd⟩
    unfold luhnCheck
    rw [luhnLoop_has_nonDigit ⟨c, List.mem_reverse.mpr hc, hcd⟩]
  · intro s h
    unfold luhnCheck
    rw [luhnLoop_all_digits (by simpa using h)]
    show decide ((0 + luhnSum s.data.reverse false) % 10 = 0) =
      decide (luhnSum s.data.reverse false % 10 = 0)
    rw [zero_add]
  · intro text c hc
    rcases List.mem_filter.mp hc with ⟨_, hlen⟩
    simp only [cardLenOk, Bool.and_eq_true, decide_eq_true_eq] at hlen
    exact ⟨digitsOnly_all c.2, hlen.1, hlen.2⟩

/-- C10 witness: the non-digit branch discharged on a concrete string. -/
theorem C10_luhn_total_witness : luhnCheck "x" = false :=
  C10_luhn_total.1 "x" ⟨'x', by decide, by decide⟩

end DocRedact
